import Mathlib

/-!
# The FILE output plugin of mjpg-streamer (`plugins/output_file/output_file.c`)

A shallow embedding of the retention pass (`check_for_filename`,
`delete_oldest_files`), of the path formatting and of the loop of
`worker_thread`, followed by the properties established about them.

C strings are lists of characters (the bytes before the terminating NUL).
The C library functions the plugin calls (`sscanf`, `strcmp` behind
`alphasort`, `strftime`, `snprintf`, `scandir`, `unlink`, `open`) are
modelled after their ISO C / POSIX descriptions, restricted to the
directives that the plugin's format strings contain.
-/

namespace OutputFile

/-- A C string: the characters before the terminating NUL. -/
abbrev CString := List Char

/-! ## libc: string comparison (`alphasort` is `strcoll`, which is `strcmp`
in the "C" locale; the plugin never calls `setlocale`) -/

/-- The sign of `strcmp a b` (ISO C fixes only the sign): bytes are
compared as unsigned values, a proper prefix sorts first. -/
def strcmp : CString → CString → Int
  | [], [] => 0
  | [], _ :: _ => -1
  | _ :: _, [] => 1
  | a :: as, b :: bs =>
    if a = b then strcmp as bs else if a.toNat < b.toNat then -1 else 1

/-- The comparison function handed to `scandir`. -/
def alphasort (a b : CString) : Int := strcmp a b

/-! ## libc: `sscanf`, for the directives of the plugin's format -/

/-- The `isspace` class of the "C" locale. -/
def is_space (c : Char) : Bool :=
  c = ' ' || c = '\t' || c = '\n' || c = '\x0b' || c = '\x0c' || c = '\r'

/-- The `isdigit` class. -/
def is_digit (c : Char) : Bool := decide ('0'.toNat ≤ c.toNat ∧ c.toNat ≤ '9'.toNat)

/-- The directives occurring in the format of `check_for_filename`. -/
inductive Directive where
  /-- Stands for `%d`. -/
  | conv_d
  /-- Stands for `%0<w>llu`: an unsigned conversion with maximum field width `w`. -/
  | conv_llu (width : Nat)
  /-- An ordinary character of the format. -/
  | lit (c : Char)
  deriving DecidableEq, Repr

/-- Outcome of one conversion. -/
inductive Scan where
  /-- The input ended before the conversion could start. -/
  | input_failure
  /-- The input does not start with a number. -/
  | matching_failure
  /-- The conversion succeeded; `rest` is the unread input. -/
  | ok (rest : CString)
  deriving DecidableEq, Repr

/-- Leading white space is skipped by every numeric conversion. -/
def skip_space : CString → CString
  | [] => []
  | c :: s => if is_space c then skip_space s else c :: s

/-- Is there field width left (`width != 0`; `none` is "no width given")? -/
def width_left : Option Nat → Bool
  | some 0 => false
  | _ => true

/-- One character of the field has been consumed. -/
def width_dec : Option Nat → Option Nat
  | some w => some (w - 1)
  | none => none

/-- Consume decimal digits while field width is left: the number of digits
read and the unread input. -/
def scan_digits : CString → Option Nat → Nat × CString
  | [], _ => (0, [])
  | c :: s, w =>
    if width_left w && is_digit c then
      ((scan_digits s (width_dec w)).1 + 1, (scan_digits s (width_dec w)).2)
    else (0, c :: s)

/-- A decimal integer conversion (`%d`, `%llu`) with optional maximum field
width: white space, an optional sign (counted in the width), then at least
one digit. The converted value is not used by the plugin and is not
modelled. -/
def scan_number (w : Option Nat) (s : CString) : Scan :=
  match skip_space s with
  | [] => Scan.input_failure
  | c :: rest =>
    let signed : Bool := c = '-' || c = '+'
    let r := if signed then scan_digits rest (width_dec w) else scan_digits (c :: rest) w
    if r.1 = 0 then Scan.matching_failure else Scan.ok r.2

/-- The value returned on an input failure: `EOF` (-1) when no conversion
has been done yet, the count otherwise. -/
def input_error (done : Int) : Int := if done = 0 then -1 else done

/-- Run the directives over the input; `done` counts the conversions
assigned so far. The result is the return value of `sscanf`. -/
def sscanf_run : List Directive → CString → Int → Int
  | [], _, done => done
  | Directive.lit c :: ds, s, done =>
    match s with
    | [] => input_error done
    | c' :: s' => if c' = c then sscanf_run ds s' done else done
  | Directive.conv_d :: ds, s, done =>
    match scan_number none s with
    | Scan.input_failure => input_error done
    | Scan.matching_failure => done
    | Scan.ok rest => sscanf_run ds rest (done + 1)
  | Directive.conv_llu w :: ds, s, done =>
    match scan_number (some w) s with
    | Scan.input_failure => input_error done
    | Scan.matching_failure => done
    | Scan.ok rest => sscanf_run ds rest (done + 1)

/-- The literal characters of a format as directives. -/
def lits (s : String) : List Directive := s.toList.map Directive.lit

/-- The format `"%d_%d_%d_%d_%d_%d_picture_%09llu.jpg"`. -/
def filename_format : List Directive :=
  [Directive.conv_d, Directive.lit '_', Directive.conv_d, Directive.lit '_',
   Directive.conv_d, Directive.lit '_', Directive.conv_d, Directive.lit '_',
   Directive.conv_d, Directive.lit '_', Directive.conv_d]
  ++ lits "_picture_" ++ [Directive.conv_llu 9] ++ lits ".jpg"

/-- The function `check_for_filename`: 1 when `sscanf` assigned all seven values,
0 otherwise. -/
def check_for_filename (d_name : CString) : Int :=
  let rc := sscanf_run filename_format d_name 0
  if rc ≠ 7 then 0 else 1

/-! ## libc: number formatting (`strftime`, `snprintf`) -/

/-- The character of a decimal digit `d < 10`. -/
def digit_char (d : Nat) : Char := Char.ofNat (48 + d % 10)

/-- The `w` least significant decimal digits of `n`, most significant first. -/
def digits_w : Nat → Nat → CString
  | 0, _ => []
  | w + 1, n => digits_w w (n / 10) ++ [digit_char n]

/-- Number of decimal digits of `n` (at least one), by bounded descent. -/
def ndigits_aux : Nat → Nat → Nat
  | 0, _ => 1
  | f + 1, n => if n < 10 then 1 else ndigits_aux f (n / 10) + 1

/-- Number of decimal digits of `n`. -/
def ndigits (n : Nat) : Nat := ndigits_aux n n

/-- Plain decimal output (`%Y`, `%llu`). -/
def decimal (n : Nat) : CString := digits_w (ndigits n) n

/-- Zero padded decimal output with minimum width `w` (`%0<w>llu`, and the
two-digit fields of `strftime`): wider numbers are printed in full. -/
def zero_padded (w n : Nat) : CString := digits_w (max w (ndigits n)) n

/-- The fields of the broken-down time `struct tm` that the plugin prints,
as `localtime` fills them (non-negative; `tm_year` counts from 1900 and
`tm_mon` from 0). -/
structure tm where
  tm_sec : Nat
  tm_min : Nat
  tm_hour : Nat
  tm_mday : Nat
  tm_mon : Nat
  tm_year : Nat
  deriving DecidableEq, Repr

/-- The text `%Y_%m_%d_%H_%M_%S` expands to: the year as a plain decimal
number (C libraries differ only in how they pad years below 1000) and the
other components as two zero padded digits. -/
def timestamp (now : tm) : CString :=
  decimal (now.tm_year + 1900) ++ '_' :: zero_padded 2 (now.tm_mon + 1)
    ++ '_' :: zero_padded 2 now.tm_mday ++ '_' :: zero_padded 2 now.tm_hour
    ++ '_' :: zero_padded 2 now.tm_min ++ '_' :: zero_padded 2 now.tm_sec

/-- The call `strftime(buffer1, max, "%%s/%Y_%m_%d_%H_%M_%S_picture_%%09llu.jpg", now)`:
the text stored in `buffer1`, or `none` when `strftime` returns 0 because the
text and its NUL do not fit in `max` bytes. -/
def strftime (max : Nat) (now : tm) : Option CString :=
  let out := "%s/".toList ++ timestamp now ++ "_picture_%09llu.jpg".toList
  if out.length < max then some out else none

/-- Expansion of the format left in `buffer1` with the arguments `folder`
and `counter`: `%s` is the folder, `%09llu` the counter, `%%` a percent sign
and every other character is copied. -/
def expand (folder : CString) (counter : Nat) : CString → CString
  | [] => []
  | c :: fmt =>
    if c = '%' then
      match fmt with
      | 's' :: rest => folder ++ expand folder counter rest
      | '0' :: '9' :: 'l' :: 'l' :: 'u' :: rest =>
        zero_padded 9 counter ++ expand folder counter rest
      | '%' :: rest => '%' :: expand folder counter rest
      | _ => []
    else c :: expand folder counter fmt

/-- The call `snprintf(buffer2, size, buffer1, folder, counter)`: at most
`size - 1` characters are stored. -/
def snprintf (size : Nat) (buffer1 folder : CString) (counter : Nat) : CString :=
  (expand folder counter buffer1).take (size - 1)

/-- The name the Frame Writer's format gives to the picture `counter`
taken at `now`, without the folder. -/
def file_name (now : tm) (counter : Nat) : CString :=
  timestamp now ++ "_picture_".toList ++ zero_padded 9 counter ++ ".jpg".toList

/-! ## The file system, as far as the plugin touches it -/

/-- The path names that currently exist. -/
abbrev FileSystem := List CString

/-- Effect of a successful `open(path, O_CREAT|O_RDWR|O_TRUNC, ...)`. -/
def fs_create (fs : FileSystem) (path : CString) : FileSystem :=
  if path ∈ fs then fs else path :: fs

/-- Effect of a successful `unlink(path)`. -/
def fs_unlink (fs : FileSystem) (path : CString) : FileSystem :=
  fs.filter (fun p => p ≠ path)

/-- Remove `pre` from the front of `s`. -/
def drop_front : CString → CString → Option CString
  | [], s => some s
  | _ :: _, [] => none
  | p :: pre, c :: s => if p = c then drop_front pre s else none

/-- The entry name of `path` when `path` lies directly in `folder`. -/
def entry_of (folder path : CString) : Option CString :=
  match drop_front (folder ++ ['/']) path with
  | some d => if d ≠ [] ∧ '/' ∉ d then some d else none
  | none => none

/-- The entries of `folder`, in the order the file system lists them: the
entries `.` and `..` and the files that lie directly in the folder. -/
def readdir (fs : FileSystem) (folder : CString) : List CString :=
  ".".toList :: "..".toList :: fs.filterMap (entry_of folder)

/-- The call `scandir(folder, &namelist, filter, compar)` on a directory that
could be read: the entries accepted by `filter`, sorted by `compar`. -/
def scandir (entries : List CString) (filter : CString → Int)
    (compar : CString → CString → Int) : List CString :=
  (entries.filter (fun e => filter e ≠ 0)).insertionSort (fun a b => compar a b ≤ 0)

/-! ## `delete_oldest_files` -/

/-- What the file system answers during one retention pass. -/
structure DirEnv where
  /-- Whether `scandir` succeeds (`n >= 0`). -/
  scandir_ok : Bool
  /-- Whether `unlink` of a path succeeds. -/
  unlink_ok : CString → Bool

/-- The accesses to `namelist` made by the two loops, in program order. -/
inductive Access where
  /-- First loop: `namelist[i]->d_name` is read and the path built from it is
  passed to `unlink`; `path` is `none` when `i` is outside the array. -/
  | unlink_entry (i : Int) (path : Option CString)
  /-- Either loop: `free(namelist[i])`. -/
  | free_entry (i : Int)
  deriving DecidableEq, Repr

/-- The integers `lo, lo+1, ..., hi-1`, the values of `i` in
`for (i = lo; i < hi; i++)`. -/
def int_range (lo hi : Int) : List Int :=
  (List.range (hi - lo).toNat).map (fun (k : Nat) => lo + (k : Int))

/-- Read `namelist[i]`; `none` outside the array. -/
def namelist_at (namelist : List CString) (i : Int) : Option CString :=
  if 0 ≤ i then namelist.get? i.toNat else none

/-- The call `snprintf(buffer, sizeof(buffer), "%s/%s", folder, d_name)` with
`char buffer[1<<16]`. -/
def entry_path (folder d_name : CString) : CString :=
  (folder ++ '/' :: d_name).take (2 ^ 16 - 1)

/-- The accesses of `delete_oldest_files(size)` once `scandir` has returned
`namelist`: the first loop unlinks and frees `namelist[i]` for
`0 <= i < n - size`, the second frees it for `MAX(n - size, 0) <= i < n`. -/
def delete_loops (size : Int) (folder : CString) (namelist : List CString) : List Access :=
  let n : Int := namelist.length
  ((int_range 0 (n - size)).flatMap fun i =>
      [Access.unlink_entry i ((namelist_at namelist i).map (entry_path folder)),
       Access.free_entry i])
  ++ (int_range (max (n - size) 0) n).map Access.free_entry

/-- The accesses of a whole call of `delete_oldest_files(size)`: none when
`size == -1` and none when `scandir` fails. -/
def delete_accesses (size : Int) (folder : CString) (fs : FileSystem) (env : DirEnv) :
    List Access :=
  if size = -1 then []
  else if env.scandir_ok then
    delete_loops size folder (scandir (readdir fs folder) check_for_filename alphasort)
  else []

/-- The paths passed to `unlink`, in order. -/
def unlink_calls : List Access → List CString
  | [] => []
  | Access.unlink_entry _ (some p) :: as => p :: unlink_calls as
  | _ :: as => unlink_calls as

/-- The indices `i` at which `namelist[i]` was read. -/
def reads : List Access → List Int
  | [] => []
  | Access.unlink_entry i _ :: as => i :: reads as
  | Access.free_entry i :: as => i :: reads as

/-- The indices whose entry was passed to `free`. -/
def frees : List Access → List Int
  | [] => []
  | Access.free_entry i :: as => i :: frees as
  | _ :: as => frees as

/-- Effect of the `unlink` calls on the file system: a failed call is
reported (`perror`) and changes nothing; the loop goes on either way. -/
def apply_unlinks (env : DirEnv) : FileSystem → List CString → FileSystem
  | fs, [] => fs
  | fs, p :: ps => apply_unlinks env (if env.unlink_ok p then fs_unlink fs p else fs) ps

/-- Whether a call of `delete_oldest_files(size)` reads `namelist[i]` at an
index `i` outside the array of `n` entries that `scandir` returned. -/
def reads_outside (size : Int) (folder : CString) (fs : FileSystem) (env : DirEnv) : Bool :=
  (reads (delete_accesses size folder fs env)).any fun i =>
    decide (i < 0
      ∨ ((scandir (readdir fs folder) check_for_filename alphasort).length : Int) ≤ i)

/-- The function `delete_oldest_files(size)` as a transformer of the file system. -/
def delete_oldest_files (size : Int) (folder : CString) (fs : FileSystem) (env : DirEnv) :
    FileSystem :=
  apply_unlinks env fs (unlink_calls (delete_accesses size folder fs env))

/-! ## The worker -/

/-- The variables that `output_init` sets from the plugin's arguments. -/
structure Config where
  /-- The target directory. -/
  folder : CString
  /-- Delay after saving a picture, in milliseconds. -/
  delay : Int
  /-- Ring buffer size of the `-s` option; -1 when the option is absent. -/
  ringbuffer_size : Int
  /-- The command of the `-c` option; `none` is `NULL`. -/
  command : Option CString

/-- What the rest of the process and the operating system answer during one
pass through the loop of `worker_thread`. Cancellation is considered at the
two points where the worker blocks, the wait and the delay. -/
structure Env where
  /-- The value of `pglobal->stop` when the loop condition is tested. -/
  stop : Bool
  /-- The thread is cancelled while it is blocked in `pthread_cond_wait`. -/
  cancel_in_wait : Bool
  /-- The value of `pglobal->size`. -/
  size : Int
  /-- Whether `realloc` returns a block. -/
  realloc_ok : Bool
  /-- The result of `localtime`; `none` is `NULL`. -/
  localtime : Option tm
  /-- The return value of `open`; negative on failure. -/
  open_fd : Int
  /-- Whether `write` succeeds. -/
  write_ok : Bool
  /-- The return value of `system`. -/
  system_rc : Int
  /-- The answers of the file system during the retention pass. -/
  dir : DirEnv
  /-- The thread is cancelled while it is blocked in `usleep`. -/
  cancel_in_delay : Bool

/-- The calls of the worker that touch the shared frame state, the guard,
the file system or another process. -/
inductive Action where
  /-- The call `pthread_cond_wait(&pglobal->db_update, &pglobal->db)` is entered. -/
  | cond_wait
  /-- The read `frame_size = pglobal->size`. -/
  | read_size
  /-- The call `realloc(frame, max_frame_size)`. -/
  | realloc
  /-- The call `memcpy(frame, pglobal->buf, frame_size)`. -/
  | copy_frame
  /-- The call `pthread_mutex_unlock(&pglobal->db)`. -/
  | mutex_unlock
  /-- The call `open(buffer2, ...)`. -/
  | open_file (path : CString)
  /-- The call `write(fd, frame, frame_size)`. -/
  | write_file
  /-- The call `close(fd)`. -/
  | close_file
  /-- The call `system(buffer1)`. -/
  | system (cmd : CString)
  /-- The call `scandir(folder, ...)`. -/
  | scandir
  /-- The call `unlink(buffer)`. -/
  | unlink (path : CString)
  /-- The call `usleep(1000*delay)`. -/
  | usleep
  deriving DecidableEq, Repr

/-- The state of the worker: the plugin's static variables, the locals of
`worker_thread`, and what the proofs observe of the process around it. -/
structure State where
  /-- The static `fd`. -/
  fd : Int
  /-- The static `max_frame_size`. -/
  max_frame_size : Int
  /-- Whether the static `frame` is not `NULL`. -/
  frame_set : Bool
  /-- The local `counter` (unsigned long long). -/
  counter : Nat
  /-- The static `first_run` of `worker_cleanup`. -/
  first_run : Bool
  /-- Whether the worker owns the guard `pglobal->db`. -/
  holds_db : Bool
  /-- Whether a block obtained from `realloc` is still allocated. -/
  frame_live : Bool
  /-- How often `free` was called on the frame buffer. -/
  frame_frees : Nat
  /-- The descriptors returned by `open` and not closed since. -/
  open_fds : List Int
  /-- The file system. -/
  fs : FileSystem
  /-- The actions so far, each with the ownership of the guard at that moment. -/
  trace : List (Action × Bool)
  /-- The paths passed to `open` so far. -/
  paths : List CString

/-- The state in which `worker_thread` starts: zero-initialised statics,
`frame == NULL`, `counter = 0`, guard not owned. -/
def initial (fs : FileSystem) : State :=
  { fd := 0, max_frame_size := 0, frame_set := false, counter := 0, first_run := true,
    holds_db := false, frame_live := false, frame_frees := 0, open_fds := [], fs := fs,
    trace := [], paths := [] }

/-- Record an action together with the current ownership of the guard. -/
def State.log (s : State) (a : Action) : State :=
  { s with trace := s.trace ++ [(a, s.holds_db)] }

/-- The value of a C `int` expression after wrap-around at 32 bits. -/
def wrap_int (x : Int) : Int := (x + 2 ^ 31) % 2 ^ 32 - 2 ^ 31

/-- The growth step: `if (frame_size > max_frame_size) max_frame_size = frame_size+(1<<16)`. -/
def grow (max_frame_size frame_size : Int) : Int :=
  if frame_size > max_frame_size then wrap_int (frame_size + 2 ^ 16) else max_frame_size

/-- The call `free(frame)`: nothing happens for `NULL`. -/
def State.free_frame (s : State) : State :=
  if s.frame_set then { s with frame_live := false, frame_frees := s.frame_frees + 1 } else s

/-- The call `close(fd)`. -/
def State.close_fd (s : State) : State :=
  { (s.log Action.close_file) with open_fds := s.open_fds.filter (fun d => d ≠ s.fd) }

/-- The function `worker_cleanup`: does its work on the first run only. -/
def worker_cleanup (s : State) : State :=
  if !s.first_run then s
  else ({ s with first_run := false }.free_frame).close_fd

/-- How a pass through the loop ends. -/
inductive Outcome where
  /-- The end of the loop body is reached; the loop condition is tested next. -/
  | next (s : State)
  /-- The thread has terminated. -/
  | exit (s : State)
  /-- The retention pass has read, unlinked and freed an element outside
  `namelist`: from here on the behaviour of the process is undefined. -/
  | fault (s : State)

/-- The state carried by an outcome. -/
def Outcome.state : Outcome → State
  | Outcome.next s => s
  | Outcome.exit s => s
  | Outcome.fault s => s

/-- Whether the worker does not get to the next test of the loop condition:
the thread has terminated, or the behaviour of the process is undefined. -/
def Outcome.terminated : Outcome → Bool
  | Outcome.next _ => false
  | Outcome.exit _ => true
  | Outcome.fault _ => true

/-- Lines 187-208: read the frame size, grow the buffer, copy, release the guard. -/
def copy_stage (e : Env) (s : State) : Outcome :=
  let s := s.log Action.read_size
  let frame_size := e.size
  if frame_size > s.max_frame_size then
    let s := { s with max_frame_size := grow s.max_frame_size frame_size }.log Action.realloc
    if e.realloc_ok then
      let s := { s with frame_set := true, frame_live := true }
      let s := s.log Action.copy_frame
      Outcome.next { (s.log Action.mutex_unlock) with holds_db := false }
    else
      Outcome.exit { (s.log Action.mutex_unlock) with holds_db := false }
  else
    let s := s.log Action.copy_frame
    Outcome.next { (s.log Action.mutex_unlock) with holds_db := false }

/-- The retention pass as the worker runs it (line 265): when the loops of
`delete_oldest_files` leave the array, the behaviour is undefined;
otherwise the actions are recorded and the file system is updated. -/
def retention_stage (cfg : Config) (e : Env) (s : State) : Outcome :=
  let calls := unlink_calls (delete_accesses cfg.ringbuffer_size cfg.folder s.fs e.dir)
  let s1 := if cfg.ringbuffer_size = -1 then s else s.log Action.scandir
  if reads_outside cfg.ringbuffer_size cfg.folder s.fs e.dir then Outcome.fault s1
  else
    let s2 := calls.foldl (fun st p => st.log (Action.unlink p)) s1
    Outcome.next
      { s2 with fs := delete_oldest_files cfg.ringbuffer_size cfg.folder s.fs e.dir }

/-- Lines 267-270: the delay. -/
def delay_stage (cfg : Config) (e : Env) (s : State) : Outcome :=
  if cfg.delay > 0 then
    let s := s.log Action.usleep
    if e.cancel_in_delay then Outcome.exit (worker_cleanup s) else Outcome.next s
  else Outcome.next s

/-- Lines 250-270: the command, the retention pass and the delay. The
command line is built by `snprintf(buffer1, sizeof(buffer1), ...)` and
therefore cut off after 1023 characters. -/
def after_write (cfg : Config) (e : Env) (buffer2 : CString) (s : State) : Outcome :=
  let s := match cfg.command with
    | some c =>
      s.log (Action.system ((c ++ " \"".toList ++ buffer2 ++ "\"".toList).take 1023))
    | none => s
  match retention_stage cfg e s with
  | Outcome.next s => delay_stage cfg e s
  | Outcome.exit s => Outcome.exit s
  | Outcome.fault s => Outcome.fault s

/-- Lines 210-248: build the file name, create the file and write the frame. -/
def write_stage (cfg : Config) (e : Env) (s : State) : Outcome :=
  match e.localtime with
  | none => Outcome.exit s
  | some now =>
    match strftime 1024 now with
    | none => Outcome.exit { s.free_frame with frame_set := false }
    | some buffer1 =>
      let buffer2 := snprintf 1024 buffer1 cfg.folder s.counter
      let s := { s with counter := (s.counter + 1) % 2 ^ 64 }
      let s := { (s.log (Action.open_file buffer2)) with
                 fd := e.open_fd, paths := s.paths ++ [buffer2] }
      if e.open_fd < 0 then Outcome.exit s
      else
        let s := { s with fs := fs_create s.fs buffer2, open_fds := e.open_fd :: s.open_fds }
        let s := s.log Action.write_file
        if e.write_ok then after_write cfg e buffer2 s.close_fd
        else Outcome.exit s.close_fd

/-- One pass through `while ( ok >= 0 && !pglobal->stop ) { ... }`, the test
of the loop condition included. A `return NULL` inside the loop leaves the
function without running `worker_cleanup`; the loop exit and a cancellation
run it. -/
def iteration (cfg : Config) (e : Env) (s : State) : Outcome :=
  if e.stop then Outcome.exit (worker_cleanup s)
  else
    let s := s.log Action.cond_wait
    let s := { s with holds_db := true }
    if e.cancel_in_wait then Outcome.exit (worker_cleanup s)
    else
      match copy_stage e s with
      | Outcome.exit s => Outcome.exit s
      | Outcome.fault s => Outcome.fault s
      | Outcome.next s => write_stage cfg e s

/-- The function `worker_thread` run against a script of answers, one per
pass; `next` means that the script ended with the worker still in its loop. -/
def worker_thread (cfg : Config) : List Env → State → Outcome
  | [], s => Outcome.next s
  | e :: es, s =>
    match iteration cfg e s with
    | Outcome.next s => worker_thread cfg es s
    | Outcome.exit s => Outcome.exit s
    | Outcome.fault s => Outcome.fault s

/-- The capacities before and after each growth step over a sequence of frame
lengths: `(max_frame_size before, frame_size, max_frame_size after)`. -/
def grow_trace : Int → List Int → List (Int × Int × Int)
  | _, [] => []
  | cap, len :: lens => (cap, len, grow cap len) :: grow_trace (grow cap len) lens

/-! ## Notions used to state the properties -/

/-- Tuple order, most significant component first, on tuples of the same
length. -/
def lex_lt : List Nat → List Nat → Prop
  | a :: as, b :: bs => a < b ∨ (a = b ∧ lex_lt as bs)
  | _, _ => False

/-- The tuple (year, month, day, hour, minute, second, sequence number) that
a file name is formatted from. -/
def order_key (now : tm) (seq : Nat) : List Nat :=
  [now.tm_year + 1900, now.tm_mon + 1, now.tm_mday, now.tm_hour, now.tm_min, now.tm_sec, seq]

/-- A clock reading whose year has four digits and whose other components
have at most two, as `localtime` delivers them for the years 1000 to 9999. -/
def four_digit_year (now : tm) : Prop :=
  1000 ≤ now.tm_year + 1900 ∧ now.tm_year + 1900 ≤ 9999 ∧ now.tm_mon + 1 < 100
  ∧ now.tm_mday < 100 ∧ now.tm_hour < 100 ∧ now.tm_min < 100 ∧ now.tm_sec < 100

/-- A pass that gets as far as the call of `open`: a frame of non-negative
length arrives, the stop flag is clear, no cancellation strikes the wait,
and `realloc` and `localtime` succeed. -/
def reaches_open (e : Env) : Prop :=
  0 ≤ e.size ∧ e.stop = false ∧ e.cancel_in_wait = false ∧ e.realloc_ok = true
  ∧ e.localtime.isSome = true

/-- A pass that runs to the end of the loop body: it reaches `open`, `open`
and `write` succeed, the retention pass stays inside `namelist` (the size is
at least -1, or `scandir` fails) and no cancellation strikes the delay. -/
def completes (cfg : Config) (e : Env) : Prop :=
  reaches_open e ∧ 0 ≤ e.open_fd ∧ e.write_ok = true
  ∧ ¬ (cfg.ringbuffer_size < -1 ∧ e.dir.scandir_ok = true)
  ∧ ¬ (cfg.delay > 0 ∧ e.cancel_in_delay = true)

/-- The path of the entry `d_name` of `folder`. -/
def path_in (folder d_name : CString) : CString := folder ++ '/' :: d_name

/-- A clock reading: 2024-01-02 03:04:05. -/
def sample_time : tm :=
  { tm_sec := 5, tm_min := 4, tm_hour := 3, tm_mday := 2, tm_mon := 0, tm_year := 124 }

/-- A file system on which `scandir` and every `unlink` succeed. -/
def dir_ok : DirEnv := { scandir_ok := true, unlink_ok := fun _ => true }

/-- A pass in which a frame of 100 bytes arrives and every call succeeds. -/
def pass_ok : Env :=
  { stop := false, cancel_in_wait := false, size := 100, realloc_ok := true,
    localtime := some sample_time, open_fd := 3, write_ok := true, system_rc := 0,
    dir := dir_ok, cancel_in_delay := false }

/-- A pass in which `open` fails. -/
def pass_open_fails : Env := { pass_ok with open_fd := -1 }

/-- A pass in which the stop flag is found set. -/
def pass_stop : Env := { pass_ok with stop := true }

/-- The options `-f /tmp -s 3`. -/
def keep_three : Config :=
  { folder := "/tmp".toList, delay := 0, ringbuffer_size := 3, command := none }

/-- A directory name of 220 characters: a slash and 219 letters. -/
def long_component : CString := '/' :: List.replicate 219 'a'

/-- A folder five such directories deep: a path of 1100 characters, each
component shorter than 256. -/
def long_folder : Config :=
  { folder := long_component ++ long_component ++ long_component ++ long_component
      ++ long_component,
    delay := 0, ringbuffer_size := -1, command := none }

/-- The options `-f /tmp` (no `-s`: unbounded). -/
def keep_all : Config :=
  { folder := "/tmp".toList, delay := 0, ringbuffer_size := -1, command := none }

/-- C10 (evaluation at the failing input): with the option `-s -2` and a
directory without matching entries (`n = 0`), `delete_oldest_files` reads
`namelist[0]` and `namelist[1]`, both outside the empty array, and frees
both. -/
theorem delete_reads_outside_namelist :
    scandir (readdir [] "/tmp".toList) check_for_filename alphasort = []
    ∧ reads (delete_accesses (-2) "/tmp".toList [] dir_ok) = [0, 0, 1, 1]
    ∧ frees (delete_accesses (-2) "/tmp".toList [] dir_ok) = [0, 1] := by
  decide

/-- C9 (evaluation at the failing input): in the first pass of the loop the
worker enters `pthread_cond_wait` without owning the guard `pglobal->db`:
the first recorded action is the wait, with the guard not held; in a run of
two passes both waits are entered without the guard. -/
theorem wait_entered_without_guard :
    (iteration keep_three pass_ok (initial [])).state.trace.head?
      = some (Action.cond_wait, false)
    ∧ (worker_thread keep_three [pass_ok, pass_ok] (initial [])).state.trace.filter
        (fun ev => ev.1 = Action.cond_wait)
      = [(Action.cond_wait, false), (Action.cond_wait, false)] := by
  decide!

/-- C8 (evaluation at the failing input): when `open` fails in the first
pass, `worker_thread` terminates with the frame buffer still allocated and
`free` never called on it; when instead the stop flag ends the loop after a
pass, the buffer has been freed once and no descriptor is open. -/
theorem open_failure_leaks_frame :
    (worker_thread keep_three [pass_open_fails] (initial [])).terminated = true
    ∧ (worker_thread keep_three [pass_open_fails] (initial [])).state.frame_live = true
    ∧ (worker_thread keep_three [pass_open_fails] (initial [])).state.frame_frees = 0
    ∧ (worker_thread keep_three [pass_ok, pass_stop] (initial [])).terminated = true
    ∧ (worker_thread keep_three [pass_ok, pass_stop] (initial [])).state.frame_live = false
    ∧ (worker_thread keep_three [pass_ok, pass_stop] (initial [])).state.frame_frees = 1
    ∧ (worker_thread keep_three [pass_ok, pass_stop] (initial [])).state.open_fds = [] := by
  decide!

/-- C2 (evaluation at the failing input): `check_for_filename` accepts a
name that ends in `.txt` instead of `.jpg`, and a name without zero padding
and without any suffix; a retention pass with `size = 0` unlinks the former. -/
theorem check_for_filename_accepts_other_names :
    check_for_filename "2024_01_02_03_04_05_picture_000000007.txt".toList = 1
    ∧ check_for_filename "1_2_3_4_5_6_picture_7".toList = 1
    ∧ delete_oldest_files 0 "/tmp".toList
        ["/tmp/2024_01_02_03_04_05_picture_000000007.txt".toList] dir_ok = [] := by
  decide

/-- C5 (counterexample): a pass in which `open` fails terminates the worker;
the following pass of the script is never started, so the wait is entered
only once. -/
theorem open_failure_terminates_worker :
    (worker_thread keep_three [pass_open_fails, pass_ok] (initial [])).terminated = true
    ∧ ((worker_thread keep_three [pass_open_fails, pass_ok] (initial [])).state.trace.filter
        (fun ev => ev.1 = Action.cond_wait)).length = 1 := by
  decide

/-! ### When the retention pass leaves the array -/

theorem mem_int_range (lo hi i : Int) : i ∈ int_range lo hi ↔ lo ≤ i ∧ i < hi := by
  simp only [int_range, List.mem_map, List.mem_range]
  constructor
  · rintro ⟨k, hk, rfl⟩
    omega
  · intro h
    exact ⟨(i - lo).toNat, by omega, by omega⟩

theorem reads_append : ∀ (as bs : List Access), reads (as ++ bs) = reads as ++ reads bs
  | [], _ => rfl
  | Access.unlink_entry _ _ :: as, bs => by simp [reads, reads_append as bs]
  | Access.free_entry _ :: as, bs => by simp [reads, reads_append as bs]

theorem reads_free (is : List Int) : reads (is.map Access.free_entry) = is := by
  induction is with
  | nil => rfl
  | cons i is ih => simp [reads, ih]

theorem mem_reads_first_loop (f : Int → Option CString) (i : Int) : ∀ is : List Int,
    i ∈ reads (is.flatMap fun j => [Access.unlink_entry j (f j), Access.free_entry j])
      ↔ i ∈ is := by
  intro is
  induction is with
  | nil => simp [reads]
  | cons j is ih =>
    simp only [List.flatMap_cons, reads_append, List.mem_append, ih, reads, List.mem_cons,
      List.not_mem_nil, or_false, List.cons_append, List.nil_append]
    tauto

/-- The indices read by the two loops of `delete_oldest_files`. -/
theorem mem_reads_delete_loops (size : Int) (folder : CString) (namelist : List CString)
    (i : Int) :
    i ∈ reads (delete_loops size folder namelist)
      ↔ (0 ≤ i ∧ i < (namelist.length : Int) - size)
        ∨ (max ((namelist.length : Int) - size) 0 ≤ i ∧ i < namelist.length) := by
  unfold delete_loops
  simp only [reads_append, List.mem_append, reads_free, mem_reads_first_loop, mem_int_range]

/-- The retention pass leaves the array exactly when the size is below -1
and `scandir` succeeds. -/
theorem reads_outside_eq (size : Int) (folder : CString) (fs : FileSystem) (env : DirEnv) :
    reads_outside size folder fs env = (decide (size < -1) && env.scandir_ok) := by
  unfold reads_outside delete_accesses
  by_cases h1 : size = -1
  · subst h1
    simp [reads]
  by_cases h2 : env.scandir_ok = true
  · simp only [h1, h2, if_true, if_false, Bool.and_true]
    by_cases h3 : size < -1
    · simp only [h3, decide_True, List.any_eq_true, decide_eq_true_eq]
      refine ⟨((scandir (readdir fs folder) check_for_filename alphasort).length : Int), ?_,
        Or.inr (le_refl _)⟩
      rw [mem_reads_delete_loops]
      left
      omega
    · simp only [h3, decide_False, List.any_eq_false, decide_eq_true_eq]
      intro i hi
      rw [mem_reads_delete_loops] at hi
      omega
  · simp [h1, h2, reads]

/-! ### When a pass continues -/

theorem retention_stage_terminated (cfg : Config) (e : Env) (s : State) :
    (retention_stage cfg e s).terminated
      = (decide (cfg.ringbuffer_size < -1) && e.dir.scandir_ok) := by
  unfold retention_stage
  dsimp only
  rw [reads_outside_eq]
  split_ifs with h <;> simp only [Outcome.terminated, h]

theorem delay_stage_terminated (cfg : Config) (e : Env) (s : State) :
    (delay_stage cfg e s).terminated = (decide (cfg.delay > 0) && e.cancel_in_delay) := by
  unfold delay_stage
  by_cases hd : cfg.delay > 0
  · by_cases hcd : e.cancel_in_delay = true
    · simp [hd, hcd, Outcome.terminated]
    · simp [hd, hcd, Outcome.terminated]
  · simp [hd, Outcome.terminated]

/-- After the write, the worker stops when the retention pass leaves the
array or a cancellation strikes the delay. -/
theorem after_write_terminated (cfg : Config) (e : Env) (b : CString) (s : State) :
    (after_write cfg e b s).terminated
      = ((decide (cfg.ringbuffer_size < -1) && e.dir.scandir_ok)
          || (decide (cfg.delay > 0) && e.cancel_in_delay)) := by
  unfold after_write
  dsimp only
  generalize hs' : (match cfg.command with
    | some c =>
      s.log (Action.system ((c ++ " \"".toList ++ b ++ "\"".toList).take 1023))
    | none => s) = s'
  have hr := retention_stage_terminated cfg e s'
  cases hret : retention_stage cfg e s' with
  | next s1 =>
    rw [hret] at hr
    simp only [Outcome.terminated] at hr
    simp only [delay_stage_terminated, ← hr, Bool.false_or]
  | exit s1 =>
    rw [hret] at hr
    simp only [Outcome.terminated] at hr
    simp only [Outcome.terminated, ← hr, Bool.true_or]
  | fault s1 =>
    rw [hret] at hr
    simp only [Outcome.terminated] at hr
    simp only [Outcome.terminated, ← hr, Bool.true_or]

/-- When the write stage leaves the worker running. -/
theorem write_stage_continues_iff (cfg : Config) (e : Env) (s : State) :
    (write_stage cfg e s).terminated = false ↔
      ((∃ now, e.localtime = some now ∧ (strftime 1024 now).isSome = true)
        ∧ 0 ≤ e.open_fd ∧ e.write_ok = true
        ∧ ¬ (cfg.ringbuffer_size < -1 ∧ e.dir.scandir_ok = true)
        ∧ ¬ (cfg.delay > 0 ∧ e.cancel_in_delay = true)) := by
  unfold write_stage
  cases hlt : e.localtime with
  | none => simp [Outcome.terminated]
  | some now =>
    simp only []
    cases hsf : strftime 1024 now with
    | none => simp [Outcome.terminated, hsf]
    | some buffer1 =>
      simp only []
      by_cases hop : e.open_fd < 0
      · simp [hop, Outcome.terminated]
      · by_cases hw : e.write_ok = true
        · simp only [hop, hw, if_true, if_false, after_write_terminated]
          simp [hsf, not_lt.mp hop]
        · simp [hop, hw, Outcome.terminated]

/-- When a pass leaves the worker running. -/
theorem iteration_continues_iff (cfg : Config) (e : Env) (s : State) :
    (iteration cfg e s).terminated = false ↔
      (e.stop = false ∧ e.cancel_in_wait = false
        ∧ (e.size > s.max_frame_size → e.realloc_ok = true)
        ∧ (∃ now, e.localtime = some now ∧ (strftime 1024 now).isSome = true)
        ∧ 0 ≤ e.open_fd ∧ e.write_ok = true
        ∧ ¬ (cfg.ringbuffer_size < -1 ∧ e.dir.scandir_ok = true)
        ∧ ¬ (cfg.delay > 0 ∧ e.cancel_in_delay = true)) := by
  unfold iteration
  by_cases hstop : e.stop = true
  · simp [hstop, Outcome.terminated]
  by_cases hcw : e.cancel_in_wait = true
  · simp [hstop, hcw, Outcome.terminated]
  simp only [hstop, hcw, Bool.false_eq_true, if_false]
  have hstop' : e.stop = false := by simpa using hstop
  have hcw' : e.cancel_in_wait = false := by simpa using hcw
  by_cases hsz : e.size > s.max_frame_size
  · by_cases hre : e.realloc_ok = true
    · simp only [copy_stage, State.log, hsz, hre, if_true, write_stage_continues_iff]
      simp [hstop', hcw', hre]
    · simp [copy_stage, State.log, hsz, hre, Outcome.terminated]
  · simp only [copy_stage, State.log, hsz, if_false, write_stage_continues_iff]
    simp [hstop', hcw', hsz]

/-- C5 (amended): for a frame of non-negative length, a pass through the
loop leaves the worker running exactly when the stop flag is clear, no
cancellation strikes, a needed buffer growth succeeds, `localtime` and
`strftime` succeed, both `open` and `write` succeed, and the retention pass
stays inside `namelist` (the size is at least -1, or `scandir` fails). A
failure of `open` or of `write` therefore terminates the worker like a clock
or allocation failure does, while the results of `system` and `unlink` have
no influence and a failure of `scandir` does not end the loop. -/
theorem pass_continues_iff (cfg : Config) (e : Env) (s : State) (_hsize : 0 ≤ e.size) :
    (iteration cfg e s).terminated = false ↔
      (e.stop = false ∧ e.cancel_in_wait = false
        ∧ (e.size > s.max_frame_size → e.realloc_ok = true)
        ∧ (∃ now, e.localtime = some now ∧ (strftime 1024 now).isSome = true)
        ∧ 0 ≤ e.open_fd ∧ e.write_ok = true
        ∧ ¬ (cfg.ringbuffer_size < -1 ∧ e.dir.scandir_ok = true)
        ∧ ¬ (cfg.delay > 0 ∧ e.cancel_in_delay = true)) :=
  iteration_continues_iff cfg e s

/-- C5 (witness): the first pass of a run with `-s 3` in which every call
succeeds leaves the worker running. -/
theorem pass_continues_iff_witness :
    (iteration keep_three pass_ok (initial [])).terminated = false ↔
      (pass_ok.stop = false ∧ pass_ok.cancel_in_wait = false
        ∧ (pass_ok.size > (initial []).max_frame_size → pass_ok.realloc_ok = true)
        ∧ (∃ now, pass_ok.localtime = some now ∧ (strftime 1024 now).isSome = true)
        ∧ 0 ≤ pass_ok.open_fd ∧ pass_ok.write_ok = true
        ∧ ¬ (keep_three.ringbuffer_size < -1 ∧ pass_ok.dir.scandir_ok = true)
        ∧ ¬ (keep_three.delay > 0 ∧ pass_ok.cancel_in_delay = true)) :=
  pass_continues_iff keep_three pass_ok (initial []) (by decide)

/-- Within the range of `int` the wrap-around changes nothing. -/
theorem wrap_int_of_range (x : Int) (h0 : -2147483648 ≤ x) (h1 : x ≤ 2147483647) :
    wrap_int x = x := by
  unfold wrap_int
  norm_num
  omega

/-- The growth step on a length that leaves room for the increment. -/
theorem grow_spec (cap len : Int) (hl0 : 0 ≤ len) (hl1 : len ≤ 2147418111) :
    grow cap len = if len > cap then len + 65536 else cap := by
  unfold grow
  by_cases h : len > cap
  · simp only [h, if_true]
    rw [wrap_int_of_range _ (by norm_num; omega) (by norm_num; omega)]
    norm_num
  · simp [h]

/-- The capacity invariant from any non-negative starting capacity. -/
theorem grow_trace_invariant (lens : List Int) :
    ∀ cap : Int, 0 ≤ cap → (∀ l ∈ lens, 0 ≤ l ∧ l ≤ 2147418111) →
      ∀ t ∈ grow_trace cap lens,
        t.1 ≤ t.2.2 ∧ t.2.1 ≤ t.2.2
        ∧ (t.2.2 ≠ t.1 → t.1 < t.2.1 ∧ t.2.2 = t.2.1 + 65536)
        ∧ (t.2.1 ≤ t.1 → t.2.2 = t.1) := by
  induction lens with
  | nil => intro cap _ _ t ht; simp [grow_trace] at ht
  | cons len lens ih =>
    intro cap hc h t ht
    have hlen := h len (List.mem_cons_self _ _)
    have hg := grow_spec cap len hlen.1 hlen.2
    simp only [grow_trace, List.mem_cons] at ht
    rcases ht with ht | ht
    · subst ht
      dsimp only
      rw [hg]
      split_ifs with hlt
      · exact ⟨by omega, by omega, fun _ => ⟨hlt, rfl⟩, fun hle => by omega⟩
      · exact ⟨le_refl _, by omega, fun hne => absurd rfl hne, fun _ => rfl⟩
    · refine ih (grow cap len) ?_ (fun l hl => h l (List.mem_cons_of_mem _ hl)) t ht
      rw [hg]
      split_ifs with hlt
      · omega
      · exact hc

/-- C7 (counterexample): a frame length of `INT_MAX` is a non-negative `int`;
the growth step from capacity 0 then leaves `max_frame_size` at
-2147418113, below the old capacity, below the frame length and different
from length + 65536. -/
theorem growth_wraps_at_int_max :
    (0 : Int) ≤ 2147483647 ∧ (2147483647 : Int) < 2 ^ 31
    ∧ grow_trace 0 [2147483647] = [(0, 2147483647, -2147418113)] := by
  decide

/-- C7 (amended): for every sequence of frame lengths between 0 and
`INT_MAX - 65536` processed by the growth step from `max_frame_size = 0`,
at every step the capacity does not decrease, the capacity after the step
is at least the frame length, the capacity changes only when the length
exceeds it and then becomes length + 65536, and a length within the
capacity causes no growth. -/
theorem capacity_invariant (lens : List Int)
    (hlens : ∀ l ∈ lens, 0 ≤ l ∧ l ≤ 2147483647 - 65536) :
    ∀ t ∈ grow_trace 0 lens,
      t.1 ≤ t.2.2 ∧ t.2.1 ≤ t.2.2
      ∧ (t.2.2 ≠ t.1 → t.1 < t.2.1 ∧ t.2.2 = t.2.1 + 65536)
      ∧ (t.2.1 ≤ t.1 → t.2.2 = t.1) :=
  grow_trace_invariant lens 0 (le_refl _) (fun l hl => by have := hlens l hl; omega)

/-- C7 (witness): in the sequence of lengths 100, 50, 70000, 200 the third
step grows the capacity from 65636 to 135536. -/
theorem capacity_invariant_witness :
    (65636 : Int) ≤ 135536 ∧ (70000 : Int) ≤ 135536
    ∧ ((135536 : Int) ≠ 65636 → (65636 : Int) < 70000 ∧ (135536 : Int) = 70000 + 65536)
    ∧ ((70000 : Int) ≤ 65636 → (135536 : Int) = 65636) :=
  capacity_invariant [100, 50, 70000, 200] (by decide) (65636, 70000, 135536) (by decide)

theorem char_toNat_inj {a b : Char} (h : a.toNat = b.toNat) : a = b := by
  apply Char.ext
  cases a with | mk va ha => cases b with | mk vb hb =>
  simp only [Char.toNat] at h
  exact UInt32.ext (by simpa [UInt32.toNat] using h)

theorem strcmp_self : ∀ a : CString, strcmp a a = 0
  | [] => by simp [strcmp]
  | x :: a => by simp [strcmp, strcmp_self a]

theorem strcmp_antisymm_sign : ∀ a b : CString, strcmp b a = - strcmp a b
  | [], [] => by simp [strcmp]
  | [], _ :: _ => by simp [strcmp]
  | _ :: _, [] => by simp [strcmp]
  | x :: a, y :: b => by
    by_cases h : x = y
    · subst h; simp [strcmp, strcmp_antisymm_sign a b]
    · have h' : ¬ y = x := fun e => h e.symm
      have hn : x.toNat ≠ y.toNat := fun e => h (char_toNat_inj e)
      simp only [strcmp, h, h', if_false]
      by_cases hlt : x.toNat < y.toNat
      · have : ¬ y.toNat < x.toNat := by omega
        simp [hlt, this]
      · have : y.toNat < x.toNat := by omega
        simp [hlt, this]

theorem strcmp_trans : ∀ a b c : CString, strcmp a b ≤ 0 → strcmp b c ≤ 0 → strcmp a c ≤ 0
  | [], _, [] => by simp [strcmp]
  | [], _, _ :: _ => by simp [strcmp]
  | _ :: _, [], _ => by simp [strcmp]
  | _ :: _, _ :: _, [] => by
    intro _ h; simp [strcmp] at h
  | x :: a, y :: b, z :: c => by
    simp only [strcmp]
    intro h1 h2
    by_cases hxy : x = y
    · subst hxy
      simp only [if_true] at h1
      by_cases hxz : x = z
      · subst hxz
        simp only [if_true] at h2 ⊢
        exact strcmp_trans a b c h1 h2
      · simp only [hxz, if_false] at h2 ⊢
        exact h2
    · simp only [hxy, if_false] at h1
      have hlt : x.toNat < y.toNat := by
        by_contra hn; simp [hn] at h1
      by_cases hyz : y = z
      · subst hyz
        simp [hxy, hlt]
      · simp only [hyz, if_false] at h2
        have hlt2 : y.toNat < z.toNat := by
          by_contra hn; simp [hn] at h2
        have hxz : ¬ x = z := by
          intro e; subst e; omega
        have : x.toNat < z.toNat := by omega
        simp [hxz, this]

/-- The order of `alphasort` is total. -/
theorem alphasort_total : IsTotal CString (fun a b => alphasort a b ≤ 0) :=
  ⟨fun a b => by
    have := strcmp_antisymm_sign a b
    simp only [alphasort]
    omega⟩

/-- The order of `alphasort` is transitive. -/
theorem alphasort_trans : IsTrans CString (fun a b => alphasort a b ≤ 0) :=
  ⟨fun a b c => strcmp_trans a b c⟩

/-- The array returned by `scandir` with `alphasort` is sorted. -/
theorem scandir_sorted (entries : List CString) (filter : CString → Int) :
    (scandir entries filter alphasort).Sorted (fun a b => alphasort a b ≤ 0) :=
  @List.sorted_insertionSort _ (fun a b => alphasort a b ≤ 0) _ alphasort_total alphasort_trans _

theorem unlink_calls_append : ∀ (as bs : List Access),
    unlink_calls (as ++ bs) = unlink_calls as ++ unlink_calls bs
  | [], _ => rfl
  | Access.unlink_entry _ (some _) :: as, bs => by
    simp [unlink_calls, unlink_calls_append as bs]
  | Access.unlink_entry _ none :: as, bs => by
    simp [unlink_calls, unlink_calls_append as bs]
  | Access.free_entry _ :: as, bs => by
    simp [unlink_calls, unlink_calls_append as bs]

theorem unlink_calls_free (is : List Int) : unlink_calls (is.map Access.free_entry) = [] := by
  induction is with
  | nil => rfl
  | cons i is ih => simp [unlink_calls, ih]

/-- The first loop over the first `m` entries of the array unlinks exactly these. -/
theorem unlink_calls_first_loop (folder : CString) (namelist : List CString) :
    ∀ m : Nat, m ≤ namelist.length →
      unlink_calls (((List.range m).map (fun (k : Nat) => (0 : Int) + (k : Int))).flatMap fun i =>
        [Access.unlink_entry i ((namelist_at namelist i).map (entry_path folder)),
         Access.free_entry i])
      = (namelist.take m).map (entry_path folder) := by
  intro m
  induction m with
  | zero => intro _; simp [unlink_calls]
  | succ m ih =>
    intro hm
    have hm' : m < namelist.length := hm
    rw [List.range_succ, List.map_append, List.flatMap_append, unlink_calls_append, ih (by omega)]
    have hat : namelist_at namelist ((0 : Int) + (m : Int)) = some (namelist.get ⟨m, hm'⟩) := by
      simp [namelist_at, List.getElem?_eq_getElem hm']
    simp only [List.map_cons, List.map_nil, List.flatMap_cons, List.flatMap_nil, List.append_nil,
      hat, Option.map_some', unlink_calls]
    rw [List.take_succ, List.map_append]
    simp [List.getElem?_eq_getElem hm']

/-- The paths that `delete_oldest_files` passes to `unlink` for a count
`size >= 0`: those of the first `n - size` entries of the sorted array. -/
theorem unlink_calls_delete_loops (size : Int) (hsize : 0 ≤ size) (folder : CString)
    (namelist : List CString) :
    unlink_calls (delete_loops size folder namelist)
      = (namelist.take (namelist.length - size.toNat)).map (entry_path folder) := by
  unfold delete_loops
  simp only [unlink_calls_append, unlink_calls_free, List.append_nil, int_range]
  have hm : ((namelist.length : Int) - size - 0).toNat = namelist.length - size.toNat := by
    omega
  rw [hm]
  exact unlink_calls_first_loop folder namelist _ (Nat.sub_le _ _)

/-- What is left after the `unlink` calls: every file except those whose
`unlink` was called and succeeded. -/
theorem mem_apply_unlinks (env : DirEnv) (q : CString) :
    ∀ (ps : List CString) (fs : FileSystem),
      q ∈ apply_unlinks env fs ps ↔ q ∈ fs ∧ ¬ (q ∈ ps ∧ env.unlink_ok q = true) := by
  intro ps
  induction ps with
  | nil => intro fs; simp [apply_unlinks]
  | cons p ps ih =>
    intro fs
    simp only [apply_unlinks, ih, List.mem_cons]
    by_cases hok : env.unlink_ok p = true
    · simp only [hok, if_true, fs_unlink, List.mem_filter, decide_eq_true_eq]
      constructor
      · rintro ⟨⟨h1, h2⟩, h3⟩
        refine ⟨h1, ?_⟩
        rintro ⟨h4 | h4, h5⟩
        · exact h2 h4
        · exact h3 ⟨h4, h5⟩
      · rintro ⟨h1, h2⟩
        refine ⟨⟨h1, ?_⟩, fun h => h2 ⟨Or.inr h.1, h.2⟩⟩
        intro e; subst e; exact h2 ⟨Or.inl rfl, hok⟩
    · simp only [hok, if_false]
      constructor
      · rintro ⟨h1, h2⟩
        refine ⟨h1, ?_⟩
        rintro ⟨h4 | h4, h5⟩
        · subst h4; exact hok h5
        · exact h2 ⟨h4, h5⟩
      · rintro ⟨h1, h2⟩
        exact ⟨h1, fun h => h2 ⟨Or.inr h.1, h.2⟩⟩

/-- The path built for `unlink` is not cut off when it fits the buffer. -/
theorem entry_path_eq (folder d : CString) (h : folder.length + 1 + d.length ≤ 65535) :
    entry_path folder d = path_in folder d := by
  unfold entry_path path_in
  apply List.take_of_length_le
  simp only [List.length_append, List.length_cons]
  norm_num
  omega

/-- C1: one cleanup pass of `delete_oldest_files(size)`. With `size = -1`
nothing is accessed and the file system is unchanged, for every directory.
With a count `size = N >= 0` and a readable directory with `M` entries
accepted by `check_for_filename`, the calls of `unlink` are exactly those
for the first `M - N` entries of the name-sorted array of accepted entries
(none when `N >= M`), in that order and whatever the individual calls
return; the `N` entries not unlinked are the greatest names; a file is
gone afterwards exactly when its `unlink` was called and succeeded; and
the path passed to `unlink` is the folder, a slash and the entry name
whenever that fits the buffer of 65536 bytes. -/
theorem delete_oldest_files_retention (size : Int) (folder : CString) (fs : FileSystem)
    (env : DirEnv) :
    (size = -1 →
      delete_accesses size folder fs env = [] ∧ delete_oldest_files size folder fs env = fs)
    ∧ (0 ≤ size → env.scandir_ok = true →
        let namelist := scandir (readdir fs folder) check_for_filename alphasort
        let unlinked := namelist.take (namelist.length - size.toNat)
        let kept := namelist.drop (namelist.length - size.toNat)
        namelist.Sorted (fun a b => alphasort a b ≤ 0)
        ∧ namelist.Perm ((readdir fs folder).filter (fun e => check_for_filename e ≠ 0))
        ∧ unlink_calls (delete_accesses size folder fs env) = unlinked.map (entry_path folder)
        ∧ namelist = unlinked ++ kept
        ∧ (∀ a ∈ unlinked, ∀ b ∈ kept, alphasort a b ≤ 0)
        ∧ (size < namelist.length →
            (unlinked.length : Int) = namelist.length - size ∧ (kept.length : Int) = size)
        ∧ ((namelist.length : Int) ≤ size → unlinked = [] ∧ kept = namelist)
        ∧ (∀ q, q ∈ delete_oldest_files size folder fs env ↔
            q ∈ fs ∧ ¬ (q ∈ unlinked.map (entry_path folder) ∧ env.unlink_ok q = true))
        ∧ ((∀ d ∈ namelist, folder.length + 1 + d.length ≤ 65535) →
            unlinked.map (entry_path folder) = unlinked.map (path_in folder))) := by
  refine ⟨?_, ?_⟩
  · intro h
    subst h
    simp [delete_accesses, delete_oldest_files, unlink_calls, apply_unlinks]
  · intro hsize hscan
    intro namelist unlinked kept
    have hsorted : namelist.Sorted (fun a b => alphasort a b ≤ 0) := scandir_sorted _ _
    have hcalls : unlink_calls (delete_accesses size folder fs env)
        = unlinked.map (entry_path folder) := by
      have hne : size ≠ -1 := by omega
      simp only [delete_accesses, hne, hscan, if_true, if_false]
      exact unlink_calls_delete_loops size hsize folder _
    have hsplit : namelist = unlinked ++ kept := (List.take_append_drop _ _).symm
    refine ⟨hsorted, List.perm_insertionSort _ _, hcalls, hsplit, ?_, ?_, ?_, ?_, ?_⟩
    · intro a ha b hb
      have hpw : (unlinked ++ kept).Pairwise (fun a b => alphasort a b ≤ 0) := by
        rw [← hsplit]; exact hsorted
      exact (List.pairwise_append.mp hpw).2.2 a ha b hb
    · intro hlt
      simp only [unlinked, kept, List.length_take, List.length_drop]
      omega
    · intro hle
      have h0 : namelist.length - size.toNat = 0 := by omega
      simp only [unlinked, kept, h0, List.take_zero, List.drop_zero, and_self]
    · intro q
      simp only [delete_oldest_files, hcalls]
      exact mem_apply_unlinks env q _ fs
    · intro hfits
      apply List.map_congr_left
      intro d hd
      exact entry_path_eq folder d (hfits d (List.mem_of_mem_take hd))

/-- C1 (witness): three pictures and an unrelated file in `/tmp`, `size = 1`. -/
theorem delete_oldest_files_retention_witness :
    unlink_calls (delete_accesses 1 "/tmp".toList
        ["/tmp/x.txt".toList, "/tmp/2024_01_02_03_04_05_picture_000000002.jpg".toList,
         "/tmp/2024_01_02_03_04_05_picture_000000001.jpg".toList,
         "/tmp/2024_01_02_03_04_05_picture_000000003.jpg".toList] dir_ok)
      = ["/tmp/2024_01_02_03_04_05_picture_000000001.jpg".toList,
         "/tmp/2024_01_02_03_04_05_picture_000000002.jpg".toList] :=
  ((delete_oldest_files_retention 1 "/tmp".toList
        ["/tmp/x.txt".toList, "/tmp/2024_01_02_03_04_05_picture_000000002.jpg".toList,
         "/tmp/2024_01_02_03_04_05_picture_000000001.jpg".toList,
         "/tmp/2024_01_02_03_04_05_picture_000000003.jpg".toList] dir_ok).2
      (by decide) rfl).2.2.1.trans (by decide)

theorem digit_char_toNat (n : Nat) : (digit_char n).toNat = 48 + n % 10 := by
  have h : n % 10 < 10 := Nat.mod_lt _ (by norm_num)
  unfold digit_char
  generalize n % 10 = d at h
  interval_cases d <;> rfl

theorem digit_char_eq_iff (a b : Nat) : digit_char a = digit_char b ↔ a % 10 = b % 10 := by
  constructor
  · intro h
    have := congrArg Char.toNat h
    rw [digit_char_toNat, digit_char_toNat] at this
    omega
  · intro h
    unfold digit_char
    rw [h]

theorem strcmp_cons_self (c : Char) (x y : CString) : strcmp (c :: x) (c :: y) = strcmp x y := by
  simp [strcmp]

theorem strcmp_append_left : ∀ (l x y : CString), strcmp (l ++ x) (l ++ y) = strcmp x y
  | [], _, _ => rfl
  | c :: l, x, y => by
    simp only [List.cons_append, strcmp_cons_self]
    exact strcmp_append_left l x y

/-- Two zero padded numbers of the same width compare like the numbers. -/
theorem strcmp_digits_w : ∀ (w a b : Nat) (x y : CString), a < 10 ^ w → b < 10 ^ w →
    strcmp (digits_w w a ++ x) (digits_w w b ++ y)
      = if a < b then -1 else if a = b then strcmp x y else 1 := by
  intro w
  induction w with
  | zero =>
    intro a b x y ha hb
    have ha0 : a = 0 := by simpa using ha
    have hb0 : b = 0 := by simpa using hb
    subst ha0; subst hb0
    simp [digits_w]
  | succ w ih =>
    intro a b x y ha hb
    have ha' : a / 10 < 10 ^ w := by
      rw [Nat.div_lt_iff_lt_mul (by norm_num)]; rw [pow_succ] at ha; exact ha
    have hb' : b / 10 < 10 ^ w := by
      rw [Nat.div_lt_iff_lt_mul (by norm_num)]; rw [pow_succ] at hb; exact hb
    simp only [digits_w, List.append_assoc, List.singleton_append]
    rw [ih (a / 10) (b / 10) _ _ ha' hb']
    simp only [strcmp, digit_char_eq_iff, digit_char_toNat]
    by_cases h1 : a / 10 < b / 10
    · have : a < b := by omega
      simp [h1, this]
    · by_cases h2 : a / 10 = b / 10
      · simp only [h1, h2, if_true, if_false]
        by_cases h3 : a % 10 = b % 10
        · have : a = b := by omega
          subst this
          simp
        · have hne : ¬ a = b := by intro e; subst e; exact h3 rfl
          simp only [h3, if_false, hne]
          by_cases h4 : a % 10 < b % 10
          · have : a < b := by omega
            simp [this, h4]
          · have : ¬ a < b := by omega
            simp [this, h4]
      · have hlt : ¬ a < b := by omega
        have hne : ¬ a = b := by intro e; subst e; exact h2 rfl
        simp [h1, h2, hlt, hne]

theorem ndigits_aux_le : ∀ (w f n : Nat), 1 ≤ w → n < 10 ^ w → ndigits_aux f n ≤ w := by
  intro w
  induction w with
  | zero => intro f n h; omega
  | succ w ih =>
    intro f n _ hn
    cases f with
    | zero => simp [ndigits_aux]
    | succ f =>
      simp only [ndigits_aux]
      split_ifs with h10
      · omega
      · have hn' : n / 10 < 10 ^ w := by
          rw [Nat.div_lt_iff_lt_mul (by norm_num)]; rw [pow_succ] at hn; exact hn
        have hw : 1 ≤ w := by
          rcases Nat.eq_zero_or_pos w with h0 | h0
          · subst h0; simp at hn'; omega
          · exact h0
        have := ih f (n / 10) hw hn'
        omega

theorem ndigits_aux_ge : ∀ (k f n : Nat), 10 ^ k ≤ n → k ≤ f → k + 1 ≤ ndigits_aux f n := by
  intro k
  induction k with
  | zero =>
    intro f n _ _
    cases f with
    | zero => simp [ndigits_aux]
    | succ f => simp only [ndigits_aux]; split_ifs <;> omega
  | succ k ih =>
    intro f n hn hf
    cases f with
    | zero => omega
    | succ f =>
      have h10 : ¬ n < 10 := by
        have : 10 ^ (k + 1) ≥ 10 := by
          calc 10 ^ (k + 1) = 10 ^ k * 10 := pow_succ _ _
            _ ≥ 1 * 10 := Nat.mul_le_mul_right _ (Nat.one_le_pow _ _ (by norm_num))
        omega
      simp only [ndigits_aux, h10, if_false]
      have hn' : 10 ^ k ≤ n / 10 := by
        rw [Nat.le_div_iff_mul_le (by norm_num)]; rw [pow_succ] at hn; exact hn
      have := ih f (n / 10) hn' (by omega)
      omega

/-- A number below `10 ^ w` is printed with exactly `w` digits by `%0<w>..`. -/
theorem zero_padded_eq (w n : Nat) (hw : 1 ≤ w) (hn : n < 10 ^ w) :
    zero_padded w n = digits_w w n := by
  unfold zero_padded ndigits
  rw [max_eq_left (ndigits_aux_le w n n hw hn)]

/-- A year between 1000 and 9999 is printed with four digits. -/
theorem decimal_four (n : Nat) (h0 : 1000 ≤ n) (h1 : n ≤ 9999) : decimal n = digits_w 4 n := by
  unfold decimal ndigits
  have hle := ndigits_aux_le 4 n n (by norm_num) (by norm_num; omega)
  have hge := ndigits_aux_ge 3 n n (by norm_num; omega) (by omega)
  have : ndigits_aux n n = 4 := by omega
  rw [this]

/-- The shape of a file name whose fields all have their nominal width. -/
theorem file_name_eq (now : tm) (seq : Nat) (ht : four_digit_year now) (hs : seq < 10 ^ 9) :
    file_name now seq
      = digits_w 4 (now.tm_year + 1900) ++ ('_' :: (digits_w 2 (now.tm_mon + 1)
        ++ ('_' :: (digits_w 2 now.tm_mday ++ ('_' :: (digits_w 2 now.tm_hour
        ++ ('_' :: (digits_w 2 now.tm_min ++ ('_' :: (digits_w 2 now.tm_sec
        ++ ("_picture_".toList ++ (digits_w 9 seq ++ ".jpg".toList)))))))))))) := by
  obtain ⟨h1, h2, h3, h4, h5, h6, h7⟩ := ht
  unfold file_name timestamp
  rw [decimal_four _ h1 h2, zero_padded_eq 2 _ (by norm_num) (by norm_num; exact h3),
    zero_padded_eq 2 _ (by norm_num) (by norm_num; exact h4),
    zero_padded_eq 2 _ (by norm_num) (by norm_num; exact h5),
    zero_padded_eq 2 _ (by norm_num) (by norm_num; exact h6),
    zero_padded_eq 2 _ (by norm_num) (by norm_num; exact h7),
    zero_padded_eq 9 _ (by norm_num) hs]
  simp only [List.append_assoc, List.cons_append]

/-- One level of the comparison cascade. -/
theorem cascade_step (a b : Nat) (r : Int) (P : Prop) (h : r < 0 ↔ P) :
    (if a < b then (-1 : Int) else if a = b then r else 1) < 0 ↔ a < b ∨ (a = b ∧ P) := by
  split_ifs with h1 h2
  · simp [h1]
  · simp [h1, h2, h]
  · simp [h1, h2]

/-- The comparison of two file names with fields of nominal width, as a
cascade over the components. -/
theorem strcmp_file_name (t1 t2 : tm) (s1 s2 : Nat) (h1 : four_digit_year t1)
    (h2 : four_digit_year t2) (hs1 : s1 < 10 ^ 9) (hs2 : s2 < 10 ^ 9) :
    strcmp (file_name t1 s1) (file_name t2 s2) < 0 ↔ lex_lt (order_key t1 s1) (order_key t2 s2) := by
  rw [file_name_eq t1 s1 h1 hs1, file_name_eq t2 s2 h2 hs2]
  obtain ⟨a1, a2, a3, a4, a5, a6, a7⟩ := h1
  obtain ⟨b1, b2, b3, b4, b5, b6, b7⟩ := h2
  rw [strcmp_digits_w 4 _ _ _ _ (by norm_num; omega) (by norm_num; omega), strcmp_cons_self,
    strcmp_digits_w 2 _ _ _ _ (by norm_num; omega) (by norm_num; omega), strcmp_cons_self,
    strcmp_digits_w 2 _ _ _ _ (by norm_num; omega) (by norm_num; omega), strcmp_cons_self,
    strcmp_digits_w 2 _ _ _ _ (by norm_num; omega) (by norm_num; omega), strcmp_cons_self,
    strcmp_digits_w 2 _ _ _ _ (by norm_num; omega) (by norm_num; omega), strcmp_cons_self,
    strcmp_digits_w 2 _ _ _ _ (by norm_num; omega) (by norm_num; omega), strcmp_append_left,
    strcmp_digits_w 9 _ _ _ _ hs1 hs2, strcmp_self]
  simp only [lex_lt, order_key]
  exact cascade_step _ _ _ _ (cascade_step _ _ _ _ (cascade_step _ _ _ _ (cascade_step _ _ _ _
    (cascade_step _ _ _ _ (cascade_step _ _ _ _ (cascade_step _ _ _ _ (by simp)))))))

/-- C4 (counterexample): at the same clock reading the sequence number
999999999 is smaller than 1000000000 (both are values of the unsigned long
long counter), but the name of the former does not sort before the name of
the latter; it sorts after it. -/
theorem name_order_fails_at_ten_digits :
    lex_lt (order_key sample_time 999999999) (order_key sample_time 1000000000)
    ∧ 1000000000 < 2 ^ 64
    ∧ ¬ (strcmp (file_name sample_time 999999999) (file_name sample_time 1000000000) < 0)
    ∧ strcmp (file_name sample_time 1000000000) (file_name sample_time 999999999) < 0 := by
  refine ⟨by simp [lex_lt, order_key], by norm_num, by decide, by decide⟩

/-- C4 (amended): for two file names formatted from clock readings with a
four-digit year (two-digit other components) and sequence numbers below
10^9, the first name sorts strictly before the second under `strcmp`
exactly when its tuple (year, month, day, hour, minute, second, sequence)
is strictly smaller in tuple order. -/
theorem name_order_iff (t1 t2 : tm) (s1 s2 : Nat) (h1 : four_digit_year t1)
    (h2 : four_digit_year t2) (hs1 : s1 < 10 ^ 9) (hs2 : s2 < 10 ^ 9) :
    strcmp (file_name t1 s1) (file_name t2 s2) < 0
      ↔ lex_lt (order_key t1 s1) (order_key t2 s2) :=
  strcmp_file_name t1 t2 s1 s2 h1 h2 hs1 hs2

/-- C4 (witness): the pictures 7 and 8 taken at the sample time. -/
theorem name_order_iff_witness :
    strcmp (file_name sample_time 7) (file_name sample_time 8) < 0
      ↔ lex_lt (order_key sample_time 7) (order_key sample_time 8) :=
  name_order_iff sample_time sample_time 7 8 (by simp [four_digit_year, sample_time])
    (by simp [four_digit_year, sample_time]) (by norm_num) (by norm_num)

/-! ### What the stages of a pass leave unchanged -/

theorem log_paths (s : State) (a : Action) : (s.log a).paths = s.paths := rfl

theorem log_counter (s : State) (a : Action) : (s.log a).counter = s.counter := rfl

theorem log_fs (s : State) (a : Action) : (s.log a).fs = s.fs := rfl

theorem foldl_unlink_log_fields (calls : List CString) : ∀ s : State,
    (calls.foldl (fun st p => st.log (Action.unlink p)) s).paths = s.paths
    ∧ (calls.foldl (fun st p => st.log (Action.unlink p)) s).counter = s.counter
    ∧ (calls.foldl (fun st p => st.log (Action.unlink p)) s).fs = s.fs := by
  induction calls with
  | nil => intro s; exact ⟨rfl, rfl, rfl⟩
  | cons a calls ih =>
    intro s
    simp only [List.foldl_cons]
    have := ih (s.log (Action.unlink a))
    simpa only [log_paths, log_counter, log_fs] using this

theorem worker_cleanup_fields (s : State) :
    (worker_cleanup s).paths = s.paths ∧ (worker_cleanup s).counter = s.counter
    ∧ (worker_cleanup s).fs = s.fs := by
  unfold worker_cleanup State.close_fd State.free_frame State.log
  split_ifs <;> simp

theorem retention_stage_fields (cfg : Config) (e : Env) (s : State) :
    (retention_stage cfg e s).state.paths = s.paths
    ∧ (retention_stage cfg e s).state.counter = s.counter
    ∧ ((retention_stage cfg e s).terminated = false →
        (retention_stage cfg e s).state.fs
          = delete_oldest_files cfg.ringbuffer_size cfg.folder s.fs e.dir) := by
  unfold retention_stage
  dsimp only
  by_cases hro : reads_outside cfg.ringbuffer_size cfg.folder s.fs e.dir = true
  · rw [if_pos hro]
    refine ⟨?_, ?_, fun h => by simp [Outcome.terminated] at h⟩
    · simp only [Outcome.state]; split_ifs <;> rfl
    · simp only [Outcome.state]; split_ifs <;> rfl
  · rw [if_neg hro]
    have h := foldl_unlink_log_fields
      (unlink_calls (delete_accesses cfg.ringbuffer_size cfg.folder s.fs e.dir))
      (if cfg.ringbuffer_size = -1 then s else s.log Action.scandir)
    refine ⟨?_, ?_, fun _ => rfl⟩
    · refine Eq.trans h.1 ?_
      split_ifs <;> rfl
    · refine Eq.trans h.2.1 ?_
      split_ifs <;> rfl

theorem delay_stage_fields (cfg : Config) (e : Env) (s : State) :
    (delay_stage cfg e s).state.paths = s.paths
    ∧ (delay_stage cfg e s).state.counter = s.counter
    ∧ (delay_stage cfg e s).state.fs = s.fs := by
  unfold delay_stage
  split_ifs
  · exact worker_cleanup_fields (s.log Action.usleep)
  · exact ⟨rfl, rfl, rfl⟩
  · exact ⟨rfl, rfl, rfl⟩

theorem after_write_fields (cfg : Config) (e : Env) (b : CString) (s : State) :
    (after_write cfg e b s).state.paths = s.paths
    ∧ (after_write cfg e b s).state.counter = s.counter
    ∧ ((after_write cfg e b s).terminated = false →
        (after_write cfg e b s).state.fs
          = delete_oldest_files cfg.ringbuffer_size cfg.folder s.fs e.dir) := by
  unfold after_write
  dsimp only
  generalize hs' : (match cfg.command with
    | some c =>
      s.log (Action.system ((c ++ " \"".toList ++ b ++ "\"".toList).take 1023))
    | none => s) = s'
  have hp : s'.paths = s.paths ∧ s'.counter = s.counter ∧ s'.fs = s.fs := by
    rw [← hs']
    cases cfg.command <;> exact ⟨rfl, rfl, rfl⟩
  have hr := retention_stage_fields cfg e s'
  rw [hp.1, hp.2.1, hp.2.2] at hr
  cases hret : retention_stage cfg e s' with
  | next s1 =>
    rw [hret] at hr
    simp only [Outcome.state, Outcome.terminated, forall_true_left] at hr
    have hd := delay_stage_fields cfg e s1
    dsimp only
    rw [hd.1, hd.2.1, hd.2.2, hr.1, hr.2.1, hr.2.2]
    exact ⟨rfl, rfl, fun _ => rfl⟩
  | exit s1 =>
    rw [hret] at hr
    simp only [Outcome.state] at hr
    exact ⟨hr.1, hr.2.1, fun h => by simp [Outcome.terminated] at h⟩
  | fault s1 =>
    rw [hret] at hr
    simp only [Outcome.state] at hr
    exact ⟨hr.1, hr.2.1, fun h => by simp [Outcome.terminated] at h⟩

theorem copy_stage_fields (e : Env) (s : State) :
    (copy_stage e s).state.paths = s.paths ∧ (copy_stage e s).state.counter = s.counter
    ∧ (copy_stage e s).state.fs = s.fs := by
  unfold copy_stage
  dsimp only
  split_ifs <;> exact ⟨rfl, rfl, rfl⟩

/-- Where the allocation succeeds, the copy stage hands over to the write stage. -/
theorem copy_stage_next (e : Env) (s : State) (h : e.realloc_ok = true) :
    ∃ s1, copy_stage e s = Outcome.next s1 := by
  unfold copy_stage
  dsimp only
  split_ifs
  · exact ⟨_, rfl⟩
  · exact ⟨_, rfl⟩

/-- The write stage once the file name can be built: the path goes to
`open` and the counter advances, whatever `open` and `write` return; when the
worker keeps running, the file exists and the retention pass has run. -/
theorem write_stage_open (cfg : Config) (e : Env) (s : State) (now : tm) (buffer1 : CString)
    (hnow : e.localtime = some now) (hbuf : strftime 1024 now = some buffer1) :
    (write_stage cfg e s).state.paths
        = s.paths ++ [snprintf 1024 buffer1 cfg.folder s.counter]
    ∧ (write_stage cfg e s).state.counter = (s.counter + 1) % 2 ^ 64
    ∧ ((write_stage cfg e s).terminated = false →
        (write_stage cfg e s).state.fs
          = delete_oldest_files cfg.ringbuffer_size cfg.folder
              (fs_create s.fs (snprintf 1024 buffer1 cfg.folder s.counter)) e.dir) := by
  unfold write_stage
  rw [hnow]
  dsimp only
  rw [hbuf]
  dsimp only
  split_ifs with hop hw
  · exact ⟨rfl, rfl, fun h => by simp [Outcome.terminated] at h⟩
  · have h := after_write_fields cfg e (snprintf 1024 buffer1 cfg.folder s.counter)
      (State.close_fd (State.log
        { (State.log { s with counter := (s.counter + 1) % 2 ^ 64 }
            (Action.open_file (snprintf 1024 buffer1 cfg.folder s.counter))) with
          fd := e.open_fd,
          paths := s.paths ++ [snprintf 1024 buffer1 cfg.folder s.counter],
          fs := fs_create s.fs (snprintf 1024 buffer1 cfg.folder s.counter),
          open_fds := e.open_fd :: s.open_fds } Action.write_file))
    exact ⟨h.1, h.2.1, h.2.2⟩
  · exact ⟨rfl, rfl, fun h => by simp [Outcome.terminated] at h⟩

/-- The write stage either ends the thread before `open` is reached, or
passes one more path to `open` and advances the counter. -/
theorem write_stage_cases (cfg : Config) (e : Env) (s : State) :
    ((write_stage cfg e s).terminated = true ∧ (write_stage cfg e s).state.paths = s.paths)
    ∨ (∃ now buffer1, e.localtime = some now ∧ strftime 1024 now = some buffer1
        ∧ (write_stage cfg e s).state.paths
            = s.paths ++ [snprintf 1024 buffer1 cfg.folder s.counter]
        ∧ (write_stage cfg e s).state.counter = (s.counter + 1) % 2 ^ 64
        ∧ ((write_stage cfg e s).terminated = false →
            (write_stage cfg e s).state.fs
              = delete_oldest_files cfg.ringbuffer_size cfg.folder
                  (fs_create s.fs (snprintf 1024 buffer1 cfg.folder s.counter)) e.dir)) := by
  cases hlt : e.localtime with
  | none =>
    left
    unfold write_stage
    rw [hlt]
    exact ⟨rfl, rfl⟩
  | some now =>
    cases hsf : strftime 1024 now with
    | none =>
      left
      unfold write_stage
      rw [hlt]
      dsimp only
      rw [hsf]
      refine ⟨rfl, ?_⟩
      simp only [Outcome.state, State.free_frame]
      split_ifs <;> rfl
    | some buffer1 =>
      right
      exact ⟨now, buffer1, rfl, hsf, write_stage_open cfg e s now buffer1 hlt hsf⟩

/-- A pass either ends before the write stage, or is the write stage run
from a state with the same paths, counter and file system. -/
theorem iteration_eq (cfg : Config) (e : Env) (s : State) :
    ((iteration cfg e s).terminated = true ∧ (iteration cfg e s).state.paths = s.paths)
    ∨ (∃ s1, iteration cfg e s = write_stage cfg e s1 ∧ s1.paths = s.paths
        ∧ s1.counter = s.counter ∧ s1.fs = s.fs) := by
  unfold iteration
  split_ifs with hstop hcw
  · left; exact ⟨rfl, (worker_cleanup_fields s).1⟩
  · left; exact ⟨rfl, (worker_cleanup_fields _).1⟩
  · dsimp only
    have h := copy_stage_fields e { (s.log Action.cond_wait) with holds_db := true }
    cases hc : copy_stage e { (s.log Action.cond_wait) with holds_db := true } with
    | exit s1 =>
      left
      rw [hc] at h
      exact ⟨rfl, h.1⟩
    | fault s1 =>
      left
      rw [hc] at h
      exact ⟨rfl, h.1⟩
    | next s1 =>
      right
      rw [hc] at h
      exact ⟨s1, rfl, h.1, h.2.1, h.2.2⟩

/-- A pass that gets past the wait and the copy is the write stage. -/
theorem iteration_reaches_write (cfg : Config) (e : Env) (s : State) (hstop : e.stop = false)
    (hcw : e.cancel_in_wait = false) (hre : e.realloc_ok = true) :
    ∃ s1, iteration cfg e s = write_stage cfg e s1 ∧ s1.paths = s.paths
      ∧ s1.counter = s.counter ∧ s1.fs = s.fs := by
  unfold iteration
  rw [hstop, hcw]
  simp only [Bool.false_eq_true, if_false]
  have h := copy_stage_fields e { (s.log Action.cond_wait) with holds_db := true }
  obtain ⟨s1, hs1⟩ := copy_stage_next e { (s.log Action.cond_wait) with holds_db := true } hre
  rw [hs1] at h ⊢
  exact ⟨s1, rfl, h.1, h.2.1, h.2.2⟩

/-- The two ways a pass can go, in terms of the paths passed to `open`. -/
theorem iteration_cases (cfg : Config) (e : Env) (s : State) :
    ((iteration cfg e s).terminated = true ∧ (iteration cfg e s).state.paths = s.paths)
    ∨ (∃ now buffer1, e.localtime = some now ∧ strftime 1024 now = some buffer1
        ∧ (iteration cfg e s).state.paths
            = s.paths ++ [snprintf 1024 buffer1 cfg.folder s.counter]
        ∧ (iteration cfg e s).state.counter = (s.counter + 1) % 2 ^ 64
        ∧ ((iteration cfg e s).terminated = false →
            (iteration cfg e s).state.fs
              = delete_oldest_files cfg.ringbuffer_size cfg.folder
                  (fs_create s.fs (snprintf 1024 buffer1 cfg.folder s.counter)) e.dir)) := by
  rcases iteration_eq cfg e s with h | ⟨s1, h1, h2, h3, h4⟩
  · left; exact h
  · rw [h1]
    have := write_stage_cases cfg e s1
    rw [h2, h3, h4] at this
    exact this

/-- A pass that reaches `open` passes the path built from the folder, the
clock reading and the counter to it, and advances the counter. -/
theorem iteration_open (cfg : Config) (e : Env) (s : State) (now : tm) (buffer1 : CString)
    (hstop : e.stop = false) (hcw : e.cancel_in_wait = false) (hre : e.realloc_ok = true)
    (hnow : e.localtime = some now) (hbuf : strftime 1024 now = some buffer1) :
    (iteration cfg e s).state.paths = s.paths ++ [snprintf 1024 buffer1 cfg.folder s.counter]
    ∧ (iteration cfg e s).state.counter = (s.counter + 1) % 2 ^ 64 := by
  obtain ⟨s1, h1, h2, h3, _⟩ := iteration_reaches_write cfg e s hstop hcw hre
  have := write_stage_open cfg e s1 now buffer1 hnow hbuf
  rw [h1, ← h2, ← h3]
  exact ⟨this.1, this.2.1⟩

theorem is_digit_digit_char (n : Nat) : is_digit (digit_char n) = true := by
  simp only [is_digit, digit_char_toNat, decide_eq_true_eq]
  have : n % 10 < 10 := Nat.mod_lt _ (by norm_num)
  have h0 : '0'.toNat = 48 := rfl
  have h9 : '9'.toNat = 57 := rfl
  omega

theorem digits_w_all_digits : ∀ (w n : Nat), ∀ c ∈ digits_w w n, is_digit c = true
  | 0, _ => by simp [digits_w]
  | w + 1, n => by
    intro c hc
    simp only [digits_w, List.mem_append, List.mem_singleton] at hc
    rcases hc with hc | hc
    · exact digits_w_all_digits w (n / 10) c hc
    · subst hc; exact is_digit_digit_char n

theorem length_digits_w : ∀ (w n : Nat), (digits_w w n).length = w
  | 0, _ => rfl
  | w + 1, n => by simp [digits_w, length_digits_w w (n / 10)]

/-- A digit is none of the characters with a special role. -/
theorem is_digit_ne {c : Char} (h : is_digit c = true) :
    c ≠ '%' ∧ c ≠ '/' ∧ c ≠ '_' ∧ c ≠ '-' ∧ c ≠ '+' ∧ is_space c = false := by
  simp only [is_digit, decide_eq_true_eq] at h
  have h0 : '0'.toNat = 48 := rfl
  have h9 : '9'.toNat = 57 := rfl
  refine ⟨?_, ?_, ?_, ?_, ?_, ?_⟩
  · rintro rfl; have : '%'.toNat = 37 := rfl; omega
  · rintro rfl; have : '/'.toNat = 47 := rfl; omega
  · rintro rfl; have : '_'.toNat = 95 := rfl; omega
  · rintro rfl; have : '-'.toNat = 45 := rfl; omega
  · rintro rfl; have : '+'.toNat = 43 := rfl; omega
  · simp only [is_space, Bool.or_eq_false_iff, decide_eq_false_iff_not]
    refine ⟨⟨⟨⟨⟨?_, ?_⟩, ?_⟩, ?_⟩, ?_⟩, ?_⟩
    · rintro rfl; have : ' '.toNat = 32 := rfl; omega
    · rintro rfl; have : '\t'.toNat = 9 := rfl; omega
    · rintro rfl; have : '\n'.toNat = 10 := rfl; omega
    · rintro rfl; have : '\x0b'.toNat = 11 := rfl; omega
    · rintro rfl; have : '\x0c'.toNat = 12 := rfl; omega
    · rintro rfl; have : '\r'.toNat = 13 := rfl; omega

/-- The characters of a time stamp are digits and underscores. -/
theorem timestamp_chars (now : tm) : ∀ c ∈ timestamp now, is_digit c = true ∨ c = '_' := by
  intro c hc
  simp only [timestamp, decimal, zero_padded, List.mem_append, List.mem_cons] at hc
  rcases hc with ((((h | h | h) | h | h) | h | h) | h | h) | h | h
  all_goals first
    | exact Or.inl (digits_w_all_digits _ _ c h)
    | exact Or.inr h

theorem expand_cons_plain (folder : CString) (k : Nat) (c : Char) (fmt : CString)
    (hc : c ≠ '%') : expand folder k (c :: fmt) = c :: expand folder k fmt := by
  conv_lhs => unfold expand
  simp [hc]

theorem expand_s (folder : CString) (k : Nat) (fmt : CString) :
    expand folder k ('%' :: 's' :: fmt) = folder ++ expand folder k fmt := by
  conv_lhs => unfold expand
  simp

theorem expand_llu (folder : CString) (k : Nat) (fmt : CString) :
    expand folder k ('%' :: '0' :: '9' :: 'l' :: 'l' :: 'u' :: fmt)
      = zero_padded 9 k ++ expand folder k fmt := by
  conv_lhs => unfold expand
  simp

theorem expand_plain (folder : CString) (k : Nat) : ∀ (l rest : CString),
    (∀ c ∈ l, c ≠ '%') → expand folder k (l ++ rest) = l ++ expand folder k rest
  | [], _, _ => rfl
  | c :: l, rest, h => by
    rw [List.cons_append, expand_cons_plain folder k c _ (h c (List.mem_cons_self _ _)),
      expand_plain folder k l rest (fun d hd => h d (List.mem_cons_of_mem _ hd))]
    rfl

/-- Expanding the format that `strftime` leaves in `buffer1` gives the folder,
a slash and the file name. -/
theorem expand_strftime (folder : CString) (k : Nat) (now : tm) (buffer1 : CString)
    (h : strftime 1024 now = some buffer1) :
    expand folder k buffer1 = folder ++ '/' :: file_name now k := by
  unfold strftime at h
  dsimp only at h
  split_ifs at h
  simp only [Option.some.injEq] at h
  subst h
  have h1 : "%s/".toList = ['%', 's', '/'] := rfl
  have h2 : "_picture_%09llu.jpg".toList
      = "_picture_".toList ++ ('%' :: '0' :: '9' :: 'l' :: 'l' :: 'u' :: ".jpg".toList) := rfl
  have hts : ∀ c ∈ timestamp now, c ≠ '%' := by
    intro c hc
    rcases timestamp_chars now c hc with hd | hd
    · exact (is_digit_ne hd).1
    · subst hd; decide
  have hpic : ∀ c ∈ "_picture_".toList, c ≠ '%' := by decide
  have hjpg : ∀ c ∈ ".jpg".toList, c ≠ '%' := by decide
  rw [h1, h2, List.append_assoc, List.cons_append, List.cons_append, List.cons_append,
    List.nil_append]
  have hend : expand folder k ".jpg".toList = ".jpg".toList := by
    have := expand_plain folder k ".jpg".toList [] hjpg
    rw [List.append_nil] at this
    rw [this]
    simp [expand]
  rw [expand_s, expand_cons_plain folder k '/' _ (by decide), expand_plain folder k _ _ hts,
    expand_plain folder k _ _ hpic, expand_llu, hend]
  simp [file_name, List.append_assoc]

theorem terminated_false_iff (o : Outcome) :
    o.terminated = false ↔ ∃ s, o = Outcome.next s := by
  cases o with
  | next s => simp [Outcome.terminated]
  | exit s => simp [Outcome.terminated]
  | fault s => simp [Outcome.terminated]

/-- A pass that stops the worker ends the run. -/
theorem worker_thread_cons_stop (cfg : Config) (e : Env) (es : List Env) (s : State)
    (h : (iteration cfg e s).terminated = true) :
    worker_thread cfg (e :: es) s = iteration cfg e s := by
  unfold worker_thread
  cases ho : iteration cfg e s with
  | next s1 => rw [ho] at h; simp [Outcome.terminated] at h
  | exit s1 => rfl
  | fault s1 => rfl

/-- After a pass that continues, the run goes on with the rest of the script. -/
theorem worker_thread_cons_next (cfg : Config) (e : Env) (es : List Env) (s s1 : State)
    (h : iteration cfg e s = Outcome.next s1) :
    worker_thread cfg (e :: es) s = worker_thread cfg es s1 := by
  conv_lhs => unfold worker_thread
  rw [h]

/-- The paths passed to `open` during a run, pass by pass, as long as the
counter does not wrap. -/
theorem run_paths (cfg : Config) : ∀ (es : List Env) (s : State),
    s.counter + es.length < 2 ^ 64 →
    ∃ new : List CString,
      (worker_thread cfg es s).state.paths = s.paths ++ new
      ∧ new.length ≤ es.length
      ∧ ((worker_thread cfg es s).terminated = false →
          new.length = es.length
          ∧ (worker_thread cfg es s).state.counter = s.counter + es.length)
      ∧ ∀ k, k < new.length → ∃ e now buffer1, es[k]? = some e ∧ e.localtime = some now
          ∧ strftime 1024 now = some buffer1
          ∧ new[k]? = some (snprintf 1024 buffer1 cfg.folder (s.counter + k)) := by
  intro es
  induction es with
  | nil =>
    intro s _
    exact ⟨[], by simp [worker_thread, Outcome.state], le_refl _,
      fun _ => ⟨rfl, by simp [worker_thread, Outcome.state]⟩, fun k hk => absurd hk (by simp)⟩
  | cons e es ih =>
    intro s hs
    simp only [List.length_cons] at hs
    rcases iteration_cases cfg e s with ⟨hterm, hpaths⟩ | ⟨now, buffer1, hnow, hbuf, hpaths, hcnt, _⟩
    · rw [worker_thread_cons_stop cfg e es s hterm]
      refine ⟨[], by rw [hpaths, List.append_nil], by simp, ?_, fun k hk => absurd hk (by simp)⟩
      intro h
      rw [hterm] at h
      exact absurd h (by decide)
    · have hmod : (s.counter + 1) % 2 ^ 64 = s.counter + 1 := Nat.mod_eq_of_lt (by omega)
      rw [hmod] at hcnt
      by_cases hterm : (iteration cfg e s).terminated = true
      · rw [worker_thread_cons_stop cfg e es s hterm]
        refine ⟨[snprintf 1024 buffer1 cfg.folder s.counter], hpaths, by simp, ?_, ?_⟩
        · intro h
          rw [hterm] at h
          exact absurd h (by decide)
        · intro k hk
          have hk0 : k = 0 := by simpa using hk
          subst hk0
          exact ⟨e, now, buffer1, by simp, hnow, hbuf, by simp⟩
      · have hfalse : (iteration cfg e s).terminated = false := by simpa using hterm
        obtain ⟨s1, ho⟩ := (terminated_false_iff _).mp hfalse
        rw [ho] at hpaths hcnt
        simp only [Outcome.state] at hpaths hcnt
        obtain ⟨new, h1, h2, h3, h4⟩ := ih s1 (by omega)
        rw [worker_thread_cons_next cfg e es s s1 ho]
        refine ⟨snprintf 1024 buffer1 cfg.folder s.counter :: new, ?_, ?_, ?_, ?_⟩
        · rw [h1, hpaths]
          simp
        · simp only [List.length_cons]; omega
        · intro hrun
          have := h3 hrun
          simp only [List.length_cons]
          omega
        · intro k hk
          cases k with
          | zero => exact ⟨e, now, buffer1, by simp, hnow, hbuf, by simp⟩
          | succ k =>
            simp only [List.length_cons, Nat.add_lt_add_iff_right] at hk
            obtain ⟨e', now', b', g1, g2, g3, g4⟩ := h4 k hk
            refine ⟨e', now', b', by simpa using g1, g2, g3, ?_⟩
            simp only [List.getElem?_cons_succ]
            rw [g4, hcnt, Nat.add_assoc, Nat.add_comm 1 k]

/-- The path built by `snprintf` when nothing is cut off. -/
theorem snprintf_eq (folder : CString) (k : Nat) (now : tm) (buffer1 : CString)
    (h : strftime 1024 now = some buffer1) (hk : k < 10 ^ 9)
    (hfit : folder.length + (timestamp now).length + 23 ≤ 1023) :
    snprintf 1024 buffer1 folder k
      = folder ++ '/' :: (timestamp now ++ "_picture_".toList ++ digits_w 9 k ++ ".jpg".toList) := by
  unfold snprintf
  rw [expand_strftime folder k now buffer1 h]
  have hz : zero_padded 9 k = digits_w 9 k := zero_padded_eq 9 k (by norm_num) hk
  unfold file_name
  rw [hz]
  apply List.take_of_length_le
  simp [length_digits_w]
  omega

/-- Zero padded numbers of the same width are equal only for equal numbers. -/
theorem digits_w_injective (w a b : Nat) (ha : a < 10 ^ w) (hb : b < 10 ^ w)
    (h : digits_w w a = digits_w w b) : a = b := by
  have h1 := strcmp_digits_w w a b [] [] ha hb
  rw [h, List.append_nil, strcmp_self] at h1
  by_contra hne
  by_cases hlt : a < b
  · simp [hlt] at h1
  · simp [hlt, hne, strcmp] at h1

/-- Two untruncated paths with different sequence numbers differ. -/
theorem path_injective (folder t1 t2 : CString) (a b : Nat) (ha : a < 10 ^ 9) (hb : b < 10 ^ 9)
    (h : folder ++ '/' :: (t1 ++ "_picture_".toList ++ digits_w 9 a ++ ".jpg".toList)
       = folder ++ '/' :: (t2 ++ "_picture_".toList ++ digits_w 9 b ++ ".jpg".toList)) :
    a = b := by
  have h1 := List.append_cancel_left h
  simp only [List.cons.injEq, true_and] at h1
  have h2 := (List.append_inj' h1 rfl).1
  have h3 := (List.append_inj' h2 (by simp [length_digits_w])).2
  exact digits_w_injective 9 a b ha hb h3

/-- Paths of a run whose folder is short enough and which is not longer than 10^9 passes. -/
theorem run_paths_pattern (cfg : Config) (fs : FileSystem) (es : List Env)
    (hlen : es.length ≤ 10 ^ 9)
    (hfit : ∀ e ∈ es, ∀ now, e.localtime = some now →
      cfg.folder.length + (timestamp now).length + 23 ≤ 1023) :
    (worker_thread cfg es (initial fs)).state.paths.length ≤ es.length
    ∧ ((worker_thread cfg es (initial fs)).terminated = false →
        (worker_thread cfg es (initial fs)).state.paths.length = es.length)
    ∧ (∀ k, k < (worker_thread cfg es (initial fs)).state.paths.length →
        ∃ e now, es[k]? = some e ∧ e.localtime = some now
          ∧ (worker_thread cfg es (initial fs)).state.paths[k]?
              = some (cfg.folder ++ '/' :: (timestamp now ++ "_picture_".toList
                  ++ digits_w 9 k ++ ".jpg".toList)))
    ∧ (worker_thread cfg es (initial fs)).state.paths.Nodup := by
  have hc : (initial fs).counter + es.length < 2 ^ 64 := by
    have : (10 : Nat) ^ 9 < 2 ^ 64 := by norm_num
    simp only [initial]; omega
  obtain ⟨new, h1, h2, h3, h4⟩ := run_paths cfg es (initial fs) hc
  have hp : (worker_thread cfg es (initial fs)).state.paths = new := by
    rw [h1]; simp [initial]
  rw [hp]
  have hpat : ∀ k, k < new.length → ∃ e now, es[k]? = some e ∧ e.localtime = some now
      ∧ new[k]? = some (cfg.folder ++ '/' :: (timestamp now ++ "_picture_".toList
          ++ digits_w 9 k ++ ".jpg".toList)) := by
    intro k hk
    obtain ⟨e, now, buffer1, g1, g2, g3, g4⟩ := h4 k hk
    refine ⟨e, now, g1, g2, ?_⟩
    have hmem : e ∈ es := List.getElem?_mem g1
    have hz : (initial fs).counter + k = k := by simp [initial]
    rw [g4, hz, snprintf_eq cfg.folder k now buffer1 g3 (by omega) (hfit e hmem now g2)]
  refine ⟨h2, fun h => (h3 h).1, hpat, ?_⟩
  rw [List.nodup_iff_getElem?_ne_getElem?]
  intro i j hij hj heq
  obtain ⟨_, n1, _, _, p1⟩ := hpat i (by omega)
  obtain ⟨_, n2, _, _, p2⟩ := hpat j hj
  rw [p1, p2, Option.some.injEq] at heq
  have := path_injective cfg.folder (timestamp n1) (timestamp n2) i j (by omega) (by omega) heq
  omega

/-! ### `check_for_filename` accepts the names the worker writes -/

theorem worker_thread_snoc (cfg : Config) (e : Env) : ∀ (es : List Env) (s : State),
    worker_thread cfg (es ++ [e]) s
      = match worker_thread cfg es s with
        | Outcome.next s1 => iteration cfg e s1
        | Outcome.exit s1 => Outcome.exit s1
        | Outcome.fault s1 => Outcome.fault s1
  | [], s => by
    simp only [List.nil_append, worker_thread]
    cases iteration cfg e s <;> rfl
  | e1 :: es, s => by
    simp only [List.cons_append, worker_thread]
    cases iteration cfg e1 s with
    | next s1 => exact worker_thread_snoc cfg e es s1
    | exit s1 => rfl
    | fault s1 => rfl

/-- The format fits into `buffer1` when the path fits into `buffer2`. -/
theorem strftime_of_fit (folder : CString) (now : tm)
    (hfit : folder.length + (timestamp now).length + 23 ≤ 1023) :
    ∃ buffer1, strftime 1024 now = some buffer1 := by
  unfold strftime
  have h1 : "%s/".toList.length = 3 := rfl
  have h2 : "_picture_%09llu.jpg".toList.length = 19 := rfl
  dsimp only
  rw [if_pos]
  · exact ⟨_, rfl⟩
  · simp only [List.length_append, h1, h2]
    omega

/-- A run in which every pass completes leaves the worker in its loop. -/
theorem run_completes (cfg : Config) : ∀ (es : List Env) (s : State),
    (∀ e ∈ es, completes cfg e) →
    (∀ e ∈ es, ∀ now, e.localtime = some now →
      cfg.folder.length + (timestamp now).length + 23 ≤ 1023) →
    (worker_thread cfg es s).terminated = false
  | [], _, _, _ => rfl
  | e :: es, s, hes, hfit => by
    obtain ⟨⟨_, h1, h2, h3, h4⟩, h5, h6, h7, h8⟩ := hes e (List.mem_cons_self _ _)
    obtain ⟨now, hnow⟩ := Option.isSome_iff_exists.mp h4
    obtain ⟨buffer1, hbuf⟩ := strftime_of_fit cfg.folder now
      (hfit e (List.mem_cons_self _ _) now hnow)
    have hcont : (iteration cfg e s).terminated = false :=
      (iteration_continues_iff cfg e s).mpr
        ⟨h1, h2, fun _ => h3, ⟨now, hnow, by rw [hbuf]; rfl⟩, h5, h6, h7, h8⟩
    obtain ⟨s1, hs1⟩ := (terminated_false_iff _).mp hcont
    rw [worker_thread_cons_next cfg e es s s1 hs1]
    exact run_completes cfg es s1 (fun e' he' => hes e' (List.mem_cons_of_mem _ he'))
      (fun e' he' => hfit e' (List.mem_cons_of_mem _ he'))

/-- The paths of a run whose passes all complete, followed by one more pass
that reaches `open`. -/
theorem run_then_open (cfg : Config) (fs : FileSystem) (es : List Env) (e : Env)
    (hlen : es.length < 10 ^ 9)
    (hes : ∀ e' ∈ es, completes cfg e') (he : reaches_open e)
    (hfit : ∀ e' ∈ es ++ [e], ∀ now, e'.localtime = some now →
      cfg.folder.length + (timestamp now).length + 23 ≤ 1023) :
    (worker_thread cfg (es ++ [e]) (initial fs)).state.paths.length = es.length + 1
    ∧ (worker_thread cfg (es ++ [e]) (initial fs)).state.counter = es.length + 1
    ∧ (∀ k, k ≤ es.length →
        ∃ e' now, (es ++ [e])[k]? = some e' ∧ e'.localtime = some now
          ∧ (worker_thread cfg (es ++ [e]) (initial fs)).state.paths[k]?
              = some (cfg.folder ++ '/' :: (timestamp now ++ "_picture_".toList
                  ++ digits_w 9 k ++ ".jpg".toList)))
    ∧ (worker_thread cfg (es ++ [e]) (initial fs)).state.paths.Nodup := by
  have hfit_es : ∀ e' ∈ es, ∀ now, e'.localtime = some now →
      cfg.folder.length + (timestamp now).length + 23 ≤ 1023 :=
    fun e' he' => hfit e' (List.mem_append_left _ he')
  -- the passes before the last one
  have hrun := run_completes cfg es (initial fs) hes hfit_es
  obtain ⟨s, hs⟩ := (terminated_false_iff _).mp hrun
  have hc : (initial fs).counter + es.length < 2 ^ 64 := by
    have : (10 : Nat) ^ 9 < 2 ^ 64 := by norm_num
    simp only [initial]; omega
  obtain ⟨new, h1, _, h3, _⟩ := run_paths cfg es (initial fs) hc
  obtain ⟨hnewlen, hcnt⟩ := h3 hrun
  rw [hs] at h1 hcnt
  simp only [Outcome.state, initial, List.nil_append, Nat.zero_add] at h1 hcnt
  -- the last pass
  obtain ⟨_, g1, g2, g3, g4⟩ := he
  obtain ⟨now, hnow⟩ := Option.isSome_iff_exists.mp g4
  obtain ⟨buffer1, hbuf⟩ := strftime_of_fit cfg.folder now
    (hfit e (by simp) now hnow)
  have hlast := iteration_open cfg e s now buffer1 g1 g2 g3 hnow hbuf
  have hstep : worker_thread cfg (es ++ [e]) (initial fs) = iteration cfg e s := by
    rw [worker_thread_snoc, hs]
  have hmod : (s.counter + 1) % 2 ^ 64 = s.counter + 1 :=
    Nat.mod_eq_of_lt (by
      have : (10 : Nat) ^ 9 < 2 ^ 64 := by norm_num
      omega)
  have hlength : (worker_thread cfg (es ++ [e]) (initial fs)).state.paths.length
      = es.length + 1 := by
    rw [hstep, hlast.1, h1, List.length_append, hnewlen, List.length_singleton]
  have hpat := run_paths_pattern cfg fs (es ++ [e])
    (by simp only [List.length_append, List.length_singleton]; omega) hfit
  refine ⟨hlength, ?_, ?_, hpat.2.2.2⟩
  · rw [hstep, hlast.2, hmod, hcnt]
  · intro k hk
    exact hpat.2.2.1 k (by rw [hlength]; omega)

/-- With `-s` absent, the pass after 10^9 completed passes within the same
second passes a path to `open` whose sequence field has ten digits. -/
theorem run_path_ten_digits :
    (worker_thread keep_all (List.replicate 1000000000 pass_ok ++ [pass_ok])
        (initial [])).state.paths[1000000000]?
      = some "/tmp/2024_01_02_03_04_05_picture_1000000000.jpg".toList := by
  have hcompl : ∀ e ∈ List.replicate 1000000000 pass_ok ++ [pass_ok], completes keep_all e := by
    intro e he
    have : e = pass_ok := by
      rw [List.mem_append, List.mem_singleton] at he
      rcases he with he | he
      · exact List.eq_of_mem_replicate he
      · exact he
    rw [this]
    exact ⟨⟨by decide, rfl, rfl, rfl, rfl⟩, by decide, rfl, fun h => absurd h.1 (by decide),
      fun h => absurd h.1 (by decide)⟩
  have hfit : ∀ e ∈ List.replicate 1000000000 pass_ok ++ [pass_ok], ∀ now,
      e.localtime = some now → keep_all.folder.length + (timestamp now).length + 23 ≤ 1023 := by
    intro e he now hnow
    have : e = pass_ok := by
      rw [List.mem_append, List.mem_singleton] at he
      rcases he with he | he
      · exact List.eq_of_mem_replicate he
      · exact he
    rw [this] at hnow
    have hn : now = sample_time := (Option.some.inj hnow).symm
    rw [hn]
    decide!
  have hrun := run_completes keep_all _ (initial []) hcompl hfit
  have hlen : (List.replicate 1000000000 pass_ok ++ [pass_ok]).length = 1000000001 := by
    rw [List.length_append, List.length_replicate, List.length_singleton]
  have hc : (initial []).counter
      + (List.replicate 1000000000 pass_ok ++ [pass_ok]).length < 2 ^ 64 := by
    rw [hlen]
    simp only [initial]
    norm_num
  obtain ⟨new, h1, _, h3, h4⟩ := run_paths keep_all _ (initial []) hc
  obtain ⟨hnewlen, _⟩ := h3 hrun
  rw [hlen] at hnewlen
  obtain ⟨e, now, buffer1, g1, g2, g3, g4⟩ := h4 1000000000 (by rw [hnewlen]; norm_num)
  have he : e = pass_ok := by
    have hmem := List.getElem?_mem g1
    rw [List.mem_append, List.mem_singleton] at hmem
    rcases hmem with hmem | hmem
    · exact List.eq_of_mem_replicate hmem
    · exact hmem
  rw [he] at g2
  have hn : now = sample_time := (Option.some.inj g2).symm
  rw [hn] at g3
  have hb : buffer1 = (strftime 1024 sample_time).getD [] := by rw [g3]; rfl
  rw [h1]
  simp only [initial, List.nil_append, Nat.zero_add] at g4 ⊢
  rw [g4, hb]
  decide!

/-- C3 (counterexample): with a folder five directories deep whose name has
1100 characters, the two paths of a run of two passes are both cut off after
1023 characters by `snprintf`; they name a file in the fourth directory, they
are not of the form folder/time_picture_seq.jpg, and they coincide. With a
short folder name, the pass after 10^9 completed passes passes a path to
`open` whose sequence field has ten digits. -/
theorem long_folder_paths_coincide :
    (long_folder.folder.length = 1100
      ∧ (worker_thread long_folder [pass_ok, pass_ok] (initial [])).terminated = false
      ∧ (worker_thread long_folder [pass_ok, pass_ok] (initial [])).state.paths
        = [long_component ++ long_component ++ long_component ++ long_component
            ++ '/' :: List.replicate 142 'a',
           long_component ++ long_component ++ long_component ++ long_component
            ++ '/' :: List.replicate 142 'a'])
    ∧ (worker_thread keep_all (List.replicate 1000000000 pass_ok ++ [pass_ok])
        (initial [])).state.paths[1000000000]?
      = some "/tmp/2024_01_02_03_04_05_picture_1000000000.jpg".toList := by
  refine ⟨⟨?_, ?_, ?_⟩, run_path_ten_digits⟩
  · decide!
  · decide!
  · decide!

/-- C3 (amended): let the folder name be short enough for `buffer2` (folder,
time stamp and 23 more characters fit in 1023) and let `k < 10^9` passes
run to the end of the loop body. Then pass `k` (counting from 0), if it
gets as far as `open`, passes to `open` the folder, a slash, the time stamp
of that pass, `_picture_`, `k` as nine zero padded digits and `.jpg`,
whatever `open` and `write` return; the same holds for the passes before it;
the counter has then advanced to `k + 1` whatever the clock showed; and the
`k + 1` paths of the run are pairwise distinct. -/
theorem worker_thread_paths (cfg : Config) (fs : FileSystem) (es : List Env) (e : Env)
    (hlen : es.length < 10 ^ 9)
    (hes : ∀ e' ∈ es, completes cfg e') (he : reaches_open e)
    (hfit : ∀ e' ∈ es ++ [e], ∀ now, e'.localtime = some now →
      cfg.folder.length + (timestamp now).length + 23 ≤ 1023) :
    (worker_thread cfg (es ++ [e]) (initial fs)).state.paths.length = es.length + 1
    ∧ (worker_thread cfg (es ++ [e]) (initial fs)).state.counter = es.length + 1
    ∧ (∀ k, k ≤ es.length →
        ∃ e' now, (es ++ [e])[k]? = some e' ∧ e'.localtime = some now
          ∧ (worker_thread cfg (es ++ [e]) (initial fs)).state.paths[k]?
              = some (cfg.folder ++ '/' :: (timestamp now ++ "_picture_".toList
                  ++ digits_w 9 k ++ ".jpg".toList)))
    ∧ (worker_thread cfg (es ++ [e]) (initial fs)).state.paths.Nodup :=
  run_then_open cfg fs es e hlen hes he hfit

/-- C3 (witness): two passes into `/tmp` within the same second, `open`
failing in the second: two paths have gone to `open`, the counter is 2 and
the paths differ. -/
theorem worker_thread_paths_witness :
    (worker_thread keep_three ([pass_ok] ++ [pass_open_fails]) (initial [])).state.paths.length
      = [pass_ok].length + 1
    ∧ (worker_thread keep_three ([pass_ok] ++ [pass_open_fails]) (initial [])).state.counter
      = [pass_ok].length + 1
    ∧ (worker_thread keep_three ([pass_ok] ++ [pass_open_fails]) (initial [])).state.paths.Nodup
    ∧ (worker_thread keep_three ([pass_ok] ++ [pass_open_fails]) (initial [])).state.paths
      = ["/tmp/2024_01_02_03_04_05_picture_000000000.jpg".toList,
         "/tmp/2024_01_02_03_04_05_picture_000000001.jpg".toList] :=
  have h := worker_thread_paths keep_three [] [pass_ok] pass_open_fails (by norm_num)
    (fun e he => by
      rw [List.mem_singleton.mp he]
      exact ⟨⟨by decide, rfl, rfl, rfl, rfl⟩, by decide, rfl, fun h => absurd h.1 (by decide),
        fun h => absurd h.1 (by decide)⟩)
    ⟨by decide, rfl, rfl, rfl, rfl⟩ (by decide)
  ⟨h.1, h.2.1, h.2.2.2, by decide!⟩

end OutputFile
